import Mathlib

/-!
# Verification development for the diaryx static-site build engine

This file gives a shallow embedding, in Lean 4, of the document-graph
construction and cross-document rewriting engine of the diaryx repository:

* `Diaryx.Core` embeds `diaryx-core/src/lib.rs` (the library crate): the
  metadata splitter, the breadth-first document loader, the relationship
  linker, the layout-aware internal-link rewriter, the attachment resolver
  and the alias-aware metadata renderer.
* `Diaryx.Cli` embeds the pieces of `src/build/mod.rs` (the CLI build
  subsystem) that differ from the library crate: its required-field check,
  its slug assignment, and the process-wide mutable state
  (`WARNING_COUNT`, `GLOBAL_DOCS`) threaded explicitly as state.

Modelling conventions:

* Rust `String`/`&str` values are embedded as `Str := List Char`.  Rust's
  `to_ascii_lowercase`, `trim`, `split`, `rsplit`, `replace` and friends are
  reimplemented on `List Char` with the same semantics.
* Rendered HTML is embedded at the attribute level: a document body is a
  list of `HtmlItem`s, alternating free text and quoted `src="…"`/`href="…"`
  attribute occurrences (the only shapes the engine's regular expressions
  `href="([^"]+?\.(?i:md)(?:[?#][^"]*)?)"` and `(?i)(src|href)="([^"]+)"`
  ever touch; attribute values contain no quote character).
* External collaborator crates (`serde_yaml` parsing and the `markdown`
  renderer) are passed in as a `Collab` record of functions, mirroring how
  the engine treats file access through the `FileProvider` trait.
* Fallible Rust functions returning `anyhow::Result` are embedded as
  `Except Str`.  The breadth-first loader is given explicit fuel; `none`
  means the fuel ran out, `some` is the Rust function's result.
-/

set_option autoImplicit false

namespace Diaryx

/-- Rust strings are embedded as lists of characters. -/
abbrev Str := List Char

/-- Convert a Lean string literal to the embedded string type. -/
def strOf (s : String) : Str := s.data

/-- ASCII lowercasing of a single character (Rust `to_ascii_lowercase`). -/
def asciiLowerChar (c : Char) : Char :=
  if 'A' ≤ c && c ≤ 'Z' then Char.ofNat (c.toNat + 32) else c

/-- ASCII lowercasing of a string (Rust `str::to_ascii_lowercase`). -/
def asciiLower (s : Str) : Str := s.map asciiLowerChar

/-- Does `s` end with `suf` (Rust `str::ends_with`)? -/
def endsWithS (s suf : Str) : Bool :=
  decide (suf.length ≤ s.length) && decide (s.drop (s.length - suf.length) = suf)

/-- Case-insensitive (ASCII) test that `s` ends with `suf`. -/
def endsWithCI (s suf : Str) : Bool := endsWithS (asciiLower s) (asciiLower suf)

/-- Split a string at every occurrence of the separator character
(Rust `str::split(c)`): always returns at least one (possibly empty) part. -/
def splitChar (sep : Char) : Str → List Str
  | [] => [[]]
  | c :: rest =>
    let ps := splitChar sep rest
    if c = sep then [] :: ps
    else match ps with
      | [] => [[c]]
      | p :: ps => (c :: p) :: ps

/-- The last `/`-separated component of a path
(Rust `path.rsplit('/').next().unwrap_or(path)`). -/
def lastSlashPart (s : Str) : Str := (splitChar '/' s).getLastD s

/-- The filename stem: everything before the last `.` if one exists
(Rust `fname.rsplit_once('.').map(|(s, _)| s).unwrap_or(fname)`). -/
def stemOf (s : Str) : Str :=
  let ps := splitChar '.' s
  if ps.length ≤ 1 then s else List.intercalate (strOf ".") ps.dropLast

/-- Whitespace as used by Rust `str::trim` (restricted to ASCII). -/
def isWsChar (c : Char) : Bool := c = ' ' || c = '\t' || c = '\n' || c = '\r'

/-- Rust `str::trim` (ASCII whitespace). -/
def trimS (s : Str) : Str :=
  ((s.dropWhile isWsChar).reverse.dropWhile isWsChar).reverse

/-- Trim a given character from both ends (Rust `str::trim_matches(c)`). -/
def trimMatches (c : Char) (s : Str) : Str :=
  ((s.dropWhile (· = c)).reverse.dropWhile (· = c)).reverse

/-- Replace every occurrence of `%20` by a space
(Rust `str::replace("%20", " ")`, left-to-right, non-overlapping). -/
def decodeP20 : Str → Str
  | '%' :: '2' :: '0' :: rest => ' ' :: decodeP20 rest
  | c :: rest => c :: decodeP20 rest
  | [] => []

/-- Replace every space by `%20` (Rust `str::replace(' ', "%20")`). -/
def encodeSpaces : Str → Str
  | ' ' :: rest => '%' :: '2' :: '0' :: encodeSpaces rest
  | c :: rest => c :: encodeSpaces rest
  | [] => []

/-- The part of a URL before the first `?` or `#`
(Rust `url.split(|c| c == '?' || c == '#').next()`). -/
def coreOfUrl (s : Str) : Str := s.takeWhile (fun c => c ≠ '?' && c ≠ '#')

/-- The query/fragment suffix of a URL: everything from the first `?` or `#`
on (empty when there is none); Rust `&url[idx..]` with
`idx = url.find(|c| c == '?' || c == '#')`. -/
def suffixOfUrl (s : Str) : Str := s.dropWhile (fun c => c ≠ '?' && c ≠ '#')

/-- Rust `str::lines`: split at `\n`, dropping one trailing empty line and
stripping a final `\r` from each line. -/
def linesRust (s : Str) : List Str :=
  if s = [] then []
  else
    let ps := splitChar '\n' s
    let ps := if ps.getLastD [] = ([] : Str) then ps.dropLast else ps
    ps.map (fun l => if endsWithS l (strOf "\r") then l.dropLast else l)

/-- Lookup in an association list used to model a Rust `HashMap`
(first match; insertion keeps keys unique). -/
def lookupAL {α : Type} (m : List (Str × α)) (k : Str) : Option α :=
  match m with
  | [] => none
  | (k', v) :: rest => if k' = k then some v else lookupAL rest k

/-- `HashMap::insert`: overwrite the value when the key is present,
append otherwise. -/
def hmInsert {α : Type} (m : List (Str × α)) (k : Str) (v : α) : List (Str × α) :=
  match m with
  | [] => [(k, v)]
  | (k', v') :: rest => if k' = k then (k, v) :: rest else (k', v') :: hmInsert rest k v

/-- Build a `HashMap` model from a list of pairs (`collect()`:
later entries overwrite earlier ones). -/
def hmOfList {α : Type} (l : List (Str × α)) : List (Str × α) :=
  l.foldl (fun m p => hmInsert m p.1 p.2) []

/-- Membership in a `HashSet` model. -/
def hsContains (s : List Str) (k : Str) : Bool := s.contains k

/-- `HashSet::insert`: returns the new set and whether the element was new. -/
def hsInsert (s : List Str) (k : Str) : List Str × Bool :=
  if hsContains s k then (s, false) else (s ++ [k], true)

/-- Lexicographic (code-point) comparison of strings, `true` iff `a ≤ b`;
matches Rust's `String` ordering (UTF-8 byte order equals code-point order). -/
def strLe : Str → Str → Bool
  | [], _ => true
  | _ :: _, [] => false
  | a :: as', b :: bs' =>
    if a.toNat < b.toNat then true
    else if b.toNat < a.toNat then false
    else strLe as' bs'

/-- Insert into a list sorted by `strLe` on the projection `f`. -/
def sortInsert {α : Type} (f : α → Str) (x : α) : List α → List α
  | [] => [x]
  | y :: ys => if strLe (f x) (f y) then x :: y :: ys else y :: sortInsert f x ys

/-- Insertion sort by `strLe` on the projection `f`
(Rust `Vec::sort_by(|a, b| a.target.cmp(&b.target))`). -/
def sortByKey {α : Type} (f : α → Str) : List α → List α
  | [] => []
  | x :: xs => sortInsert f x (sortByKey f xs)

/-- Embedded `serde_yaml::Value` (the cases the engine inspects). -/
inductive Yaml : Type where
  | null : Yaml
  | bool : Bool → Yaml
  | num : Int → Yaml
  | str : Str → Yaml
  | seq : List Yaml → Yaml
  | map : List (Str × Yaml) → Yaml

instance : Inhabited Yaml := ⟨Yaml.null⟩

/-- `Value::as_str` (Rust): `some` only on strings. -/
def Yaml.asStr : Yaml → Option Str
  | .str s => some s
  | _ => none

namespace Core

/-- `FrontmatterRaw` of `diaryx-core/src/lib.rs` (serde-deserialized
frontmatter; unknown fields ignored, every field defaulting to `None`). -/
structure FrontmatterRaw where
  title : Option Str := none
  author : Option Yaml := none
  created : Option Str := none
  updated : Option Str := none
  visibility : Option Yaml := none
  format : Option Yaml := none
  contents : Option (List Str) := none
  part_of : Option Yaml := none
  version : Option Str := none
  copying : Option Str := none
  tags : Option (List Str) := none
  aliases : Option (List Str) := none
  this_file_is_root_index : Option Bool := none
  reachable : Option Yaml := none

instance : Inhabited FrontmatterRaw := ⟨{}⟩

/-- A rendered-HTML item: free text, or one quoted `src="…"`/`href="…"`
attribute occurrence (the value never contains a quote character). -/
inductive HtmlItem : Type where
  | text : Str → HtmlItem
  | srcAttr : Str → HtmlItem
  | hrefAttr : Str → HtmlItem
deriving DecidableEq

/-- Rendered HTML, embedded at the attribute level. -/
abbrev Html := List HtmlItem

/-- The internal `Doc` struct of `diaryx-core/src/lib.rs`. -/
structure Doc where
  id : Str
  abs_path : Str
  title : Str
  visibility : List Str
  tags : List Str
  aliases : List Str
  is_root_index : Bool
  is_index : Bool
  contents_raw : List Str
  raw_part_of : List Str
  children : List Str
  parents : List Str
  child_aliases : List (Str × Str)
  parent_aliases : List (Str × Str)
  html : Html
  frontmatter : Yaml
  warnings : List Str
  body_md : Str

/-- `Doc::is_public`: some visibility entry equals `public`. -/
def Doc.is_public (d : Doc) : Bool := d.visibility.any (fun v => v = strOf "public")

/-- `CoreBuildOptions` of `diaryx-core/src/lib.rs`. -/
structure CoreBuildOptions where
  include_nonpublic : Bool := false
  flat : Bool := false
  strict : Bool := false
  rewrite_links : Bool := false
deriving DecidableEq

/-- The `FileProvider` trait as a record of functions. -/
structure FileProvider where
  read_to_string : Str → Except Str Str
  exists' : Str → Bool
  is_file : Str → Bool
  join : Str → Str → Str
  extension_lowercase : Str → Option Str
  parent : Str → Option Str
  file_name : Str → Option Str

/-- External collaborator crates as a record of functions:
`yamlParse` is `serde_yaml::from_str` followed by the serde derive into
`FrontmatterRaw` (`from_value(..).unwrap_or_default()`), `renderMd` is
`markdown::to_html_with_options` producing attribute-level HTML. -/
structure Collab where
  yamlParse : Str → Except Str (Yaml × FrontmatterRaw)
  renderMd : Str → Except Str Html

/-- `slugify` (`diaryx-core/src/lib.rs`): ASCII-lowercase, collapse every
run of characters outside `[a-z0-9]` to a single hyphen
(regex `[^a-z0-9]+` replaced by `-`), trim hyphens from both ends. -/
def isSlugChar (c : Char) : Bool := ('a' ≤ c && c ≤ 'z') || ('0' ≤ c && c ≤ '9')

/-- `slugify`: the hidden boolean of `collapseGo` records whether the
previous character was part of a non-slug run (so each maximal run yields a
single hyphen, as the regex replacement does). -/
def slugify (s : Str) : Str :=
  trimMatches '-' (collapseGo false (asciiLower s))
where
  collapseGo : Bool → Str → Str
    | _, [] => []
    | inRun, c :: rest =>
      if isSlugChar c then c :: collapseGo false rest
      else if inRun then collapseGo true rest
      else '-' :: collapseGo true rest

/-- `SplitFrontmatter` (`diaryx-core/src/lib.rs`). -/
structure SplitFrontmatter where
  frontmatter_yaml : Option Str
  body_md : Str
deriving DecidableEq

/-- `split_frontmatter` (`diaryx-core/src/lib.rs`): a file starting with a
`---` line must close the header block with another `---` line; an
unterminated block is a hard error. -/
def split_frontmatter (raw : Str) : Except Str SplitFrontmatter :=
  match linesRust raw with
  | l :: rest =>
    if l = strOf "---" then
      splitGo rest []
    else .ok ⟨none, raw⟩
  | [] => .ok ⟨none, raw⟩
where
  /-- Scan the remaining lines: collect header lines until the closing
  `---`; every line after it is body. No closing line is fatal. -/
  splitGo : List Str → List Str → Except Str SplitFrontmatter
    | [], _ => .error (strOf "Unterminated frontmatter block")
    | l :: rest, yaml =>
      if l = strOf "---" then
        .ok ⟨some (List.intercalate (strOf "\n") yaml),
             List.intercalate (strOf "\n") rest⟩
      else splitGo rest (yaml ++ [l])

/-- `parse_frontmatter` (`diaryx-core/src/lib.rs`): no header, or a
blank header, yields `Null` and the all-default struct; otherwise the
`serde_yaml` collaborator decides. -/
def parse_frontmatter (C : Collab) (yamlOpt : Option Str) :
    Except Str (Yaml × FrontmatterRaw) :=
  match yamlOpt with
  | none => .ok (Yaml.null, {})
  | some y => if trimS y = [] then .ok (Yaml.null, {}) else C.yamlParse y

/-- One `Missing required field: <field> (<path>)` warning string. -/
def missingMsg (field : Str) (path : Str) : Str :=
  strOf "Missing required field: " ++ field ++ strOf " (" ++ path ++ strOf ")"

/-- The `reachable` field counts as missing when absent, null, a blank
string, or an empty sequence (`diaryx-core/src/lib.rs`, `check_required`). -/
def reachableMissing (r : Option Yaml) : Bool :=
  match r with
  | none => true
  | some Yaml.null => true
  | some (Yaml.str s) => trimS s = []
  | some (Yaml.seq l) => l.isEmpty
  | some _ => false

/-- `check_required` (`diaryx-core/src/lib.rs`): one warning per missing
field among title, author, created, updated, visibility, format,
reachable; the warning names the field and the document path. -/
def check_required (fm : FrontmatterRaw) (path : Str) : List Str :=
  (if fm.title.isNone then [missingMsg (strOf "title") path] else []) ++
  (if fm.author.isNone then [missingMsg (strOf "author") path] else []) ++
  (if fm.created.isNone then [missingMsg (strOf "created") path] else []) ++
  (if fm.updated.isNone then [missingMsg (strOf "updated") path] else []) ++
  (if fm.visibility.isNone then [missingMsg (strOf "visibility") path] else []) ++
  (if fm.format.isNone then [missingMsg (strOf "format") path] else []) ++
  (if reachableMissing fm.reachable then [missingMsg (strOf "reachable") path] else [])

/-- `parse_part_of` (`diaryx-core/src/lib.rs`). -/
def parse_part_of (value : Option Yaml) : List Str :=
  match value with
  | some (Yaml.str s) => [s]
  | some (Yaml.seq l) => l.filterMap Yaml.asStr
  | _ => []

/-- `normalize_string_or_list` (`diaryx-core/src/lib.rs`). -/
def normalize_string_or_list (v : Option Yaml) : List Str :=
  match v with
  | some (Yaml.str s) => [trimS s]
  | some (Yaml.seq l) => (l.filterMap Yaml.asStr).map trimS |>.filter (fun s => ¬ s.isEmpty)
  | _ => []

/-- `normalize_contents` (`diaryx-core/src/lib.rs`). -/
def normalize_contents (c : Option (List Str)) : List Str :=
  match c with
  | some list => (list.map trimS).filter (fun s => ¬ s.isEmpty)
  | none => []

/-- Target capture of the regex tail `([^)>]+)>?\s*\)`, not anchored at the
end (used by the search regex of `resolve_contents_link`): the capture is
the maximal run of non-`)`/`>` characters, optionally followed by `>` and
whitespace before the closing parenthesis. -/
def linkTgt (t : Str) : Option Str :=
  let tgt := t.takeWhile (fun c => c ≠ ')' && c ≠ '>')
  let r := t.drop tgt.length
  if tgt.isEmpty then none
  else
    match r with
    | ')' :: _ => some tgt
    | '>' :: r2 => if (r2.dropWhile isWsChar).head? = some ')' then some tgt else none
    | _ => none

/-- The `\(\s*<?([^)>]+)>?\s*\)` part of the link regex: skip whitespace,
optionally consume `<` (with the regex engine's backtracking when the
`<`-consuming branch fails), then `linkTgt`. -/
def linkParen (s : Str) : Option Str :=
  let b := s.dropWhile isWsChar
  match b with
  | '<' :: b2 => (linkTgt b2).orElse (fun _ => linkTgt b)
  | _ => linkTgt b

/-- Try to match `\[[^\]]*]\(\s*<?([^)>]+)>?\s*\)` at the start of `s`,
returning the target capture. -/
def linkAt (s : Str) : Option Str :=
  match s with
  | '[' :: rest =>
    match rest.dropWhile (· ≠ ']') with
    | ']' :: '(' :: rest2 => linkParen rest2
    | _ => none
  | _ => none

/-- Leftmost match of the unanchored link regex
(`LINK_RE.captures(raw)` in `resolve_contents_link`): try every start
position left to right. -/
def findLinkTarget : Str → Option Str
  | [] => none
  | c :: rest => ((linkAt (c :: rest)).orElse (fun _ => findLinkTarget rest))

/-- `resolve_contents_link` (`diaryx-core/src/lib.rs`): extract the link
target, try it relative to the referencing document's directory, retry with
`.md` appended when it has no extension, and always return a best-effort
path so the caller can warn instead of aborting. -/
def resolve_contents_link (fs : FileProvider) (raw : Str) (parent_dir : Str) : Option Str :=
  match findLinkTarget raw with
  | none => none
  | some target0 =>
    let target := trimS target0
    let first := fs.join parent_dir target
    if fs.exists' first then some first
    else if (fs.extension_lowercase target).isNone && ¬ endsWithS target (strOf "/") then
      let appended := target ++ strOf ".md"
      let with_md := fs.join parent_dir appended
      if fs.exists' with_md then some with_md else some first
    else some first

/-- Anchored variant of `linkTgt` for
`^\[([^\]]*)]\(\s*<?([^)>]+)>?\s*\)$`: the closing parenthesis must end
the string. -/
def linkTgtEnd (t : Str) : Option Str :=
  let tgt := t.takeWhile (fun c => c ≠ ')' && c ≠ '>')
  let r := t.drop tgt.length
  if tgt.isEmpty then none
  else
    match r with
    | [')'] => some tgt
    | '>' :: r2 => if r2.dropWhile isWsChar = [')'] then some tgt else none
    | _ => none

/-- Anchored variant of `linkParen`. -/
def linkParenEnd (s : Str) : Option Str :=
  let b := s.dropWhile isWsChar
  match b with
  | '<' :: b2 => (linkTgtEnd b2).orElse (fun _ => linkTgtEnd b)
  | _ => linkTgtEnd b

/-- `extract_md_link_parts_raw` (`diaryx-core/src/lib.rs`): match the whole
trimmed string against `^\[([^\]]*)]\(\s*<?([^)>]+)>?\s*\)$` and return the
trimmed alias and target captures. -/
def extract_md_link_parts_raw (raw : Str) : Option (Str × Str) :=
  let s := trimS raw
  match s with
  | '[' :: rest =>
    let aliasCap := rest.takeWhile (· ≠ ']')
    match rest.dropWhile (· ≠ ']') with
    | ']' :: '(' :: rest2 =>
      match linkParenEnd rest2 with
      | some tgt => some (trimS aliasCap, trimS tgt)
      | none => none
    | _ => none
  | _ => none

/-- `normalize_target_basename_raw` (`diaryx-core/src/lib.rs`). -/
def normalize_target_basename_raw (t : Str) : Str :=
  let last := lastSlashPart t
  if endsWithCI last (strOf ".md") then last else last ++ strOf ".md"

/-- `html_escape_text` / `html_esc_simple` (`diaryx-core/src/lib.rs`). -/
def html_escape_text (s : Str) : Str :=
  s.flatMap (fun ch =>
    if ch = '&' then strOf "&amp;"
    else if ch = '<' then strOf "&lt;"
    else if ch = '>' then strOf "&gt;"
    else if ch = '"' then strOf "&quot;"
    else if ch = '\'' then strOf "&#39;"
    else [ch])

/-- Outcome of processing one queued path in `collect_documents`:
skip (possibly with a global warning), abort the whole build, or a loaded
document. -/
inductive LoadOutcome : Type where
  | skip : Option Str → LoadOutcome
  | fatal : Str → LoadOutcome
  | loaded : Doc → LoadOutcome

/-- The per-path body of the `collect_documents` loop
(`diaryx-core/src/lib.rs`, lines 424–500): existence/file/extension
checks, read, frontmatter split and parse, required-field check, title and
slug derivation, markdown rendering, document construction.  Read
failures skip with a warning; an unterminated header, a header the YAML
parser rejects, or a body the renderer rejects are fatal (`?`). -/
def loadOne (C : Collab) (fs : FileProvider) (path : Str) : LoadOutcome :=
  if ¬ fs.exists' path then
    .skip (some (strOf "Entry or referenced path missing: " ++ path))
  else if ¬ fs.is_file path then
    .skip (some (strOf "Skipping non-file path: " ++ path))
  else
    match fs.extension_lowercase path with
    | none => .skip none
    | some ext =>
      if ext ≠ strOf "md" then .skip none
      else
        match fs.read_to_string path with
        | .error e => .skip (some (strOf "Failed to read " ++ path ++ strOf ": " ++ e))
        | .ok raw =>
          match split_frontmatter raw with
          | .error _ => .fatal (strOf "Split frontmatter failed: " ++ path)
          | .ok split =>
            match parse_frontmatter C split.frontmatter_yaml with
            | .error e => .fatal e
            | .ok (fm_val, fm) =>
              let doc_warnings := check_required fm path
              let title := fm.title.getD ((fs.file_name path).getD path)
              let slug := slugify (stemOf ((fs.file_name path).getD title))
              match C.renderMd split.body_md with
              | .error _ => .fatal (strOf "Markdown render failure: " ++ path)
              | .ok html =>
                let visibility := normalize_string_or_list fm.visibility
                let contents_norm := normalize_contents fm.contents
                let is_root := fm.this_file_is_root_index.getD false
                .loaded {
                  id := slug
                  abs_path := path
                  title := title
                  visibility := visibility
                  tags := fm.tags.getD []
                  aliases := fm.aliases.getD []
                  is_root_index := is_root
                  is_index := ¬ contents_norm.isEmpty
                  contents_raw := contents_norm
                  raw_part_of := parse_part_of fm.part_of
                  children := []
                  parents := []
                  child_aliases := []
                  parent_aliases := []
                  html := html
                  frontmatter := fm_val
                  warnings := doc_warnings
                  body_md := split.body_md }

/-- `entry_metadata_had_root` (`diaryx-core/src/lib.rs`). -/
def entry_metadata_had_root (entry : Str) (visited : List (Str × Doc)) : Bool :=
  ((lookupAL visited entry).map Doc.is_root_index).getD false

/-- The recursion-gate expansion (`diaryx-core/src/lib.rs`, lines
511–529): resolve each contents entry; enqueue it when it exists and is a
file, otherwise record a global warning.  Returns the enqueued paths and
the warnings, in order. -/
def expandContents (fs : FileProvider) (path : Str) (parent_dir : Str)
    (contents_links : List Str) : List Str × List Str :=
  contents_links.foldl
    (fun acc raw_link =>
      match resolve_contents_link fs raw_link parent_dir with
      | some resolved =>
        if fs.exists' resolved && fs.is_file resolved then (acc.1 ++ [resolved], acc.2)
        else (acc.1, acc.2 ++ [strOf "contents target not found or not a file: " ++
              resolved ++ strOf " (from " ++ path ++ strOf ")"])
      | none =>
        (acc.1, acc.2 ++ [strOf "Could not parse contents entry '" ++ raw_link ++
              strOf "' in " ++ path]))
    ([], [])

/-- The breadth-first loop of `collect_documents` with explicit fuel:
`none` is fuel exhaustion, otherwise exactly the Rust result — the
documents in traversal order together with the global warnings. -/
def collectGo (C : Collab) (fs : FileProvider) (entry : Str) :
    Nat → List Str → List (Str × Doc) → List Str → List Str →
    Option (Except Str (List Doc × List Str))
  | fuel, queue, visited, order, warns =>
    match queue with
    | [] => some (.ok (order.filterMap (lookupAL visited), warns))
    | path :: rest =>
      match fuel with
      | 0 => none
      | fuel + 1 =>
        if (lookupAL visited path).isSome then
          collectGo C fs entry fuel rest visited order warns
        else
          match loadOne C fs path with
          | .skip w? => collectGo C fs entry fuel rest visited order (warns ++ w?.toList)
          | .fatal m => some (.error m)
          | .loaded doc =>
            let visited' := visited ++ [(path, doc)]
            let order' := order ++ [path]
            if doc.is_index &&
                (doc.is_root_index || entry_metadata_had_root entry visited') then
              match fs.parent path with
              | some parent_dir =>
                let ew := expandContents fs path parent_dir doc.contents_raw
                collectGo C fs entry fuel (rest ++ ew.1) visited' order' (warns ++ ew.2)
              | none => collectGo C fs entry fuel rest visited' order' warns
            else
              collectGo C fs entry fuel rest visited' order' warns

/-- `collect_documents` (`diaryx-core/src/lib.rs`): breadth-first traversal
from the entry path. -/
def collect_documents (C : Collab) (fs : FileProvider) (entry : Str) (fuel : Nat) :
    Option (Except Str (List Doc × List Str)) :=
  collectGo C fs entry fuel [entry] [] [] []

instance : Inhabited Doc :=
  ⟨{ id := [], abs_path := [], title := [], visibility := [], tags := [],
     aliases := [], is_root_index := false, is_index := false, contents_raw := [],
     raw_part_of := [], children := [], parents := [], child_aliases := [],
     parent_aliases := [], html := [], frontmatter := Yaml.null, warnings := [],
     body_md := [] }⟩

/-- In-place update of one vector element (`docs[j].f = …`). -/
def modifyIdx (docs : List Doc) (j : Nat) (f : Doc → Doc) : List Doc :=
  match docs.get? j with
  | some d => docs.set j (f d)
  | none => docs

/-- One structural-edge pass of `link_graph` for document `i`
(`diaryx-core/src/lib.rs`, lines 674–696): resolve each contents entry of
an index document; when a loaded document matches, register the
deduplicated child edge on `i` and the parent edge on the child. -/
def linkEdgesAt (fs : FileProvider) (docs : List Doc) (i : Nat) : List Doc :=
  match docs.get? i with
  | none => docs
  | some di =>
    if ¬ di.is_index then docs
    else
      let parent_dir := (fs.parent di.abs_path).getD []
      di.contents_raw.foldl
        (fun docs raw_link =>
          match resolve_contents_link fs raw_link parent_dir with
          | some abs =>
            match docs.findIdx? (fun d => d.abs_path = abs) with
            | some child_idx =>
              let child_slug := (docs.getD child_idx default).id
              let docs :=
                if ¬ (docs.getD i default).children.contains child_slug then
                  modifyIdx docs i (fun d => { d with children := d.children ++ [child_slug] })
                else docs
              let docs :=
                if ¬ (docs.getD child_idx default).parents.contains (docs.getD i default).id then
                  modifyIdx docs child_idx
                    (fun d => { d with parents := d.parents ++ [(docs.getD i default).id] })
                else docs
              docs
            | none => docs
          | none => docs)
        docs

/-- The child-alias pass of `link_graph` for document `i`
(`diaryx-core/src/lib.rs`, lines 700–719). -/
def childAliasesAt (fs : FileProvider) (docs : List Doc) (i : Nat) : List Doc :=
  match docs.get? i with
  | none => docs
  | some di =>
    if ¬ di.is_index || di.contents_raw.isEmpty then docs
    else
      let parent_dir := (fs.parent di.abs_path).getD []
      di.contents_raw.foldl
        (fun docs raw =>
          match extract_md_link_parts_raw raw with
          | some (aliasText, _target) =>
            if aliasText.isEmpty then docs
            else
              match resolve_contents_link fs raw parent_dir with
              | some abs =>
                match docs.findIdx? (fun d => d.abs_path = abs) with
                | some idx =>
                  let slug := (docs.getD idx default).id
                  modifyIdx docs i
                    (fun d => { d with child_aliases := hmInsert d.child_aliases slug aliasText })
                | none => docs
              | none => docs
          | none => docs)
        docs

/-- The parent-alias pass of `link_graph` for document `i`
(`diaryx-core/src/lib.rs`, lines 722–740). -/
def parentAliasesAt (fs : FileProvider) (docs : List Doc) (i : Nat) : List Doc :=
  match docs.get? i with
  | none => docs
  | some di =>
    if di.raw_part_of.isEmpty then docs
    else
      let parent_dir := (fs.parent di.abs_path).getD []
      di.raw_part_of.foldl
        (fun docs raw =>
          match extract_md_link_parts_raw raw with
          | some (aliasText, _target) =>
            if aliasText.isEmpty then docs
            else
              match resolve_contents_link fs raw parent_dir with
              | some abs =>
                match docs.findIdx? (fun d => d.abs_path = abs) with
                | some idx =>
                  let slug := (docs.getD idx default).id
                  modifyIdx docs i
                    (fun d => { d with parent_aliases := hmInsert d.parent_aliases slug aliasText })
                | none => docs
              | none => docs
          | none => docs)
        docs

/-- `link_graph` (`diaryx-core/src/lib.rs`): structural edges, then child
aliases, then parent aliases, each a pass over all document indices. -/
def link_graph (fs : FileProvider) (docs : List Doc) : List Doc :=
  let docs := (List.range docs.length).foldl (linkEdgesAt fs) docs
  let docs := (List.range docs.length).foldl (childAliasesAt fs) docs
  (List.range docs.length).foldl (parentAliasesAt fs) docs

/-- Does the URL between the quotes match
`[^"]+?\.(?i:md)(?:[?#][^"]*)?` as a whole?  Equivalently: some nonempty
proper prefix of length ≥ 4 ends (case-insensitively) in `.md` and the
remainder is empty or starts with `?` or `#`.  (Attribute values contain
no quote character in the embedding.) -/
def matchesMdHref (v : Str) : Bool :=
  (List.range (v.length + 1)).any (fun i =>
    decide (4 ≤ i) &&
    endsWithCI (v.take i) (strOf ".md") &&
    (match v.drop i with
     | [] => true
     | c :: _ => c = '?' || c = '#'))

/-- The basename lookup map of `rewrite_internal_links`
(`diaryx-core/src/lib.rs`, lines 779–790): source-file basename to
(slug, is-root-index); built with `collect()`, so later documents
overwrite earlier ones on basename collision. -/
def byBasename (docs : List Doc) : List (Str × (Str × Bool)) :=
  hmOfList (docs.map (fun d => (lastSlashPart d.abs_path, (d.id, d.is_root_index))))

/-- The layout table of `rewrite_internal_links`
(`diaryx-core/src/lib.rs`, lines 810–839). -/
def newHrefFor (multi_page flat current_is_root target_is_root : Bool) (slug : Str) : Str :=
  if multi_page && ¬ flat then
    if current_is_root then
      if target_is_root then strOf "index.html" else strOf "pages/" ++ slug ++ strOf ".html"
    else
      if target_is_root then strOf "../index.html" else slug ++ strOf ".html"
  else if multi_page then
    if target_is_root then strOf "index.html" else slug ++ strOf ".html"
  else strOf "index.html"

/-- Rewrite one `href` attribute value: when the regex matches and the
(%20-decoded) basename of the pre-query/fragment part resolves against the
loaded documents, produce the layout-table href with the original
query/fragment suffix; otherwise `none` (the attribute is left as-is). -/
def rewriteHrefValue (bb : List (Str × (Str × Bool)))
    (multi_page flat current_is_root : Bool) (url : Str) : Option Str :=
  if matchesMdHref url then
    let core := coreOfUrl url
    let basename := lastSlashPart core
    let basename_norm := decodeP20 basename
    match lookupAL bb basename_norm with
    | some (target_slug, target_is_root) =>
      some (newHrefFor multi_page flat current_is_root target_is_root target_slug ++
            suffixOfUrl url)
    | none => none
  else none

/-- Does the rendered HTML contain `.md` case-insensitively (the per-doc
fast skip `doc.html.to_ascii_lowercase().contains(".md")`)?  In the
attribute-level embedding a `.md` occurrence can only lie inside one
item's text or attribute value. -/
def containsSub (s pat : Str) : Bool :=
  (List.range (s.length + 1)).any (fun i => ((s.drop i).take pat.length) = pat)

/-- See `containsSub`. -/
def htmlContainsMdCI (h : Html) : Bool :=
  h.any (fun item =>
    match item with
    | .text s => containsSub (asciiLower s) (strOf ".md")
    | .srcAttr v => containsSub (asciiLower v) (strOf ".md")
    | .hrefAttr v => containsSub (asciiLower v) (strOf ".md"))

/-- Per-item action of the rewrite loop: only matched-and-resolved `href`
attributes are replaced. -/
def rewriteItem (bb : List (Str × (Str × Bool)))
    (multi_page flat current_is_root : Bool) : HtmlItem → HtmlItem
  | .hrefAttr v =>
    .hrefAttr ((rewriteHrefValue bb multi_page flat current_is_root v).getD v)
  | item => item

/-- The per-document body of `rewrite_internal_links`. -/
def rewriteDoc (bb : List (Str × (Str × Bool))) (multi_page flat : Bool) (d : Doc) : Doc :=
  if htmlContainsMdCI d.html then
    { d with html := d.html.map (rewriteItem bb multi_page flat d.is_root_index) }
  else d

/-- `rewrite_internal_links` (`diaryx-core/src/lib.rs`, lines 773–859). -/
def rewrite_internal_links (docs : List Doc) (opts : CoreBuildOptions) : List Doc :=
  if docs.isEmpty then docs
  else
    let has_root := docs.any (fun d => d.is_root_index)
    let multi_page := has_root && decide (1 < docs.length)
    let bb := byBasename docs
    docs.map (rewriteDoc bb multi_page opts.flat)

/-- Does `s` start with `pre`? (Rust `str::starts_with`). -/
def startsWithS (s pre : Str) : Bool := s.take pre.length = pre

/-- Decimal rendering of a number (for collision suffixes `-1`, `-2`, …). -/
def natToStr (n : Nat) : Str := (toString n).data

/-- Modelled from the spec's file-access collaborator: the attachment pass
of `build_site` consults the operating system directly through
`std::path::Path::exists`/`is_dir`.  The OS resolves `.`/`..` segments, so
existence is up to path normalization while the engine's own bookkeeping
is on raw path strings. -/
structure OsFs where
  files : List Str
  dirs : List Str

/-- OS-level path normalization: drop `.` and empty segments, let `..`
consume the preceding segment. -/
def normalizePath (p : Str) : Str :=
  List.intercalate (strOf "/") (normGo [] (splitChar '/' p))
where
  normGo : List Str → List Str → List Str
    | acc, [] => acc.reverse
    | acc, s :: rest =>
      if s = strOf "." ∨ s = [] then normGo acc rest
      else if s = strOf ".." then
        match acc with
        | _ :: t => normGo t rest
        | [] => normGo [strOf ".."] rest
      else normGo (s :: acc) rest

/-- `Path::exists` against the modelled OS. -/
def OsFs.existsP (o : OsFs) (p : Str) : Bool :=
  o.files.contains (normalizePath p) || o.dirs.contains (normalizePath p)

/-- `Path::is_dir` against the modelled OS. -/
def OsFs.isDirP (o : OsFs) (p : Str) : Bool := o.dirs.contains (normalizePath p)

/-- `std::path::Path::parent` on `/`-separated path strings (`""` when
there is no directory component). -/
def pathParent (p : Str) : Str :=
  if (splitChar '/' p).length ≤ 1 then [] else
    List.intercalate (strOf "/") (splitChar '/' p).dropLast

/-- `std::path::Path::join` with a relative right-hand side (string
concatenation with a separator; no normalization). -/
def pathJoin (parent rel : Str) : Str :=
  if parent.isEmpty then rel else parent ++ strOf "/" ++ rel

/-- `Path::file_name` (final component), with the `unwrap_or("attachment")`
fallback of the attachment pass. -/
def attachBaseName (p : Str) : Str :=
  let b := lastSlashPart p
  if b.isEmpty then strOf "attachment" else b

/-- `base_name.rsplit_once('.')`: the stem and the dotted extension (the
extension keeps its dot; empty when there is no dot). -/
def stemExt (s : Str) : Str × Str :=
  let ps := splitChar '.' s
  if ps.length ≤ 1 then (s, [])
  else (List.intercalate (strOf ".") ps.dropLast, '.' :: ps.getLastD [])

/-- The collision loop `format!("{}-{}{}", stem, counter, ext)` with
counters from 1; fuel `used.length + 1` always suffices. -/
def freshName (stem ext : Str) : Nat → Nat → List Str → Str
  | 0, k, _ => stem ++ strOf "-" ++ natToStr k ++ ext
  | fuel + 1, k, used =>
    let cand := stem ++ strOf "-" ++ natToStr k ++ ext
    if hsContains used cand then freshName stem ext fuel (k + 1) used else cand

/-- `AttachmentPlanEntry` (`diaryx-core/src/lib.rs`). -/
structure AttachmentPlanEntry where
  source : Str
  target : Str
deriving DecidableEq

/-- The mutable state of the attachment pass: the `source → target`
mapping and the set of used base names under `assets/`. -/
structure AttachState where
  source_to_target : List (Str × Str)
  used_names : List Str

/-- Candidate filter of the attachment pass (`diaryx-core/src/lib.rs`,
lines 189–209): `none` when the value is not treated as an attachment
(empty, fragment, absolute, `data:`/`mailto:`, has a scheme, or is a
markdown page link); otherwise the pre-query/fragment core value. -/
def attachCandidate (val : Str) : Option Str :=
  if val.isEmpty || startsWithS val (strOf "#") || startsWithS val (strOf "/") ||
      startsWithS val (strOf "data:") || startsWithS val (strOf "mailto:") ||
      containsSub val (strOf "://") then none
  else
    let core_val := coreOfUrl val
    if endsWithS (asciiLower core_val) (strOf ".md") then none
    else some core_val

/-- Process one attribute value of the attachment pass
(`diaryx-core/src/lib.rs`, lines 180–282): returns the new state, an
optional document-local warning, and the replacement value (`none`
leaves the attribute unchanged). -/
def attachOneValue (os : OsFs) (multi_page flat is_root : Bool) (parent_dir : Str)
    (st : AttachState) (val : Str) : AttachState × Option Str × Option Str :=
  match attachCandidate val with
  | none => (st, none, none)
  | some core_val =>
    let decoded := decodeP20 core_val
    let abs := pathJoin parent_dir decoded
    if ¬ os.existsP abs then
      (st, some (strOf "Attachment not found: " ++ abs), none)
    else if os.isDirP abs then
      (st, some (strOf "Attachment path is directory (skipped): " ++ abs), none)
    else
      let str := st.source_to_target
      let (st, target_rel) :=
        match lookupAL str abs with
        | some existing => (st, existing)
        | none =>
          let base_name := attachBaseName abs
          let (used, wasNew) := hsInsert st.used_names base_name
          let (used, base_name) :=
            if wasNew then (used, base_name)
            else
              let se := stemExt base_name
              let fresh := freshName se.1 se.2 (used.length + 1) 1 used
              (used ++ [fresh], fresh)
          let rel := strOf "assets/" ++ base_name
          (⟨hmInsert st.source_to_target abs rel, used⟩, rel)
      let final_path :=
        if multi_page && ¬ flat && ¬ is_root then strOf "../" ++ target_rel else target_rel
      (st, none, some (encodeSpaces final_path))

/-- One HTML item under the attachment pass. -/
def attachOneItem (os : OsFs) (multi_page flat is_root : Bool) (parent_dir : Str)
    (st : AttachState) : HtmlItem → AttachState × Option Str × HtmlItem
  | .text s => (st, none, .text s)
  | .srcAttr v =>
    match attachOneValue os multi_page flat is_root parent_dir st v with
    | (st, w, some v') => (st, w, .srcAttr v')
    | (st, w, none) => (st, w, .srcAttr v)
  | .hrefAttr v =>
    match attachOneValue os multi_page flat is_root parent_dir st v with
    | (st, w, some v') => (st, w, .hrefAttr v')
    | (st, w, none) => (st, w, .hrefAttr v)

/-- One document under the attachment pass: skipped entirely when its HTML
has no `src="`/`href="` attribute; otherwise every attribute is processed
in order, warnings are appended to the document. -/
def attachDoc (os : OsFs) (multi_page flat : Bool) (st : AttachState) (d : Doc) :
    AttachState × Doc :=
  if ¬ d.html.any (fun item =>
      match item with
      | .srcAttr _ => true
      | .hrefAttr _ => true
      | .text _ => false) then (st, d)
  else
    let parent_dir := pathParent d.abs_path
    let fin := d.html.foldl
      (fun (acc : AttachState × List Str × Html) item =>
        let r := attachOneItem os multi_page flat d.is_root_index parent_dir acc.1 item
        (r.1, acc.2.1 ++ r.2.1.toList, acc.2.2 ++ [r.2.2]))
      (st, [], [])
    (fin.1, { d with html := fin.2.2, warnings := d.warnings ++ fin.2.1 })

/-- The whole attachment block of `build_site` (`diaryx-core/src/lib.rs`,
lines 159–295): process the documents in order, then convert the mapping
to a plan sorted by target. -/
def attachments_pass (os : OsFs) (multi_page flat : Bool) (docs : List Doc) :
    List Doc × List AttachmentPlanEntry :=
  let fin := docs.foldl
    (fun (acc : AttachState × List Doc) d =>
      let r := attachDoc os multi_page flat acc.1 d
      (r.1, acc.2 ++ [r.2]))
    (⟨[], []⟩, [])
  (fin.2, sortByKey (fun e => e.target)
    (fin.1.source_to_target.map (fun p => ⟨p.1, p.2⟩)))

/-- `PageOutput` (`diaryx-core/src/lib.rs`; the `metadata_html` field is
embedded separately by `buildMetadataChildLinks`, the slice of
`build_metadata_html` under scrutiny here). -/
structure PageOutput where
  id : Str
  source_path : Str
  file_name : Str
  title : Str
  html : Html
  is_root_index : Bool
  is_index : Bool
  parents : List Str
  children : List Str
  frontmatter : Yaml
  warnings : List Str

/-- `BuildArtifacts` (`diaryx-core/src/lib.rs`). -/
structure BuildArtifacts where
  pages : List PageOutput
  attachments : List AttachmentPlanEntry
  warnings : List Str
  multi_page : Bool
  root_slug : Option Str

/-- The page projection of `build_site` step 6. -/
def pageOf (multi_page : Bool) (d : Doc) : PageOutput :=
  { id := d.id
    source_path := d.abs_path
    file_name :=
      if multi_page then
        if d.is_root_index then strOf "index.html" else d.id ++ strOf ".html"
      else strOf "index.html"
    title := d.title
    html := d.html
    is_root_index := d.is_root_index
    is_index := d.is_index
    parents := d.parents
    children := d.children
    frontmatter := d.frontmatter
    warnings := d.warnings }

/-- `build_site` (`diaryx-core/src/lib.rs`, lines 115–347): collect,
link, require the entry to be loaded, filter by visibility (always keeping
the entry), rewrite internal links when requested, compute layout, run the
attachment pass, and project pages.  The aggregate warning list is the
global warnings followed by each document's warnings in order. -/
def build_site (C : Collab) (fs : FileProvider) (os : OsFs) (entry : Str)
    (opts : CoreBuildOptions) (fuel : Nat) : Option (Except Str BuildArtifacts) :=
  match collect_documents C fs entry fuel with
  | none => none
  | some (.error e) => some (.error e)
  | some (.ok (docs0, warnings_global)) =>
    let docs := link_graph fs docs0
    if (docs.find? (fun d => d.abs_path = entry)).isNone then
      some (.error (strOf "Entry path not loaded: " ++ entry))
    else
      let docs :=
        if ¬ opts.include_nonpublic then
          docs.filter (fun d => d.is_public || d.abs_path = entry)
        else docs
      if docs.isEmpty then
        some (.error (strOf "No documents after filtering. Ensure visibility includes 'public' or enable include_nonpublic."))
      else
        let docs := if opts.rewrite_links then rewrite_internal_links docs opts else docs
        let multi_page := docs.any (fun d => d.is_root_index) && decide (1 < docs.length)
        let root_slug := (docs.find? (fun d => d.is_root_index)).map (fun d => d.id)
        let da := attachments_pass os multi_page opts.flat docs
        some (.ok
          { pages := da.1.map (pageOf multi_page)
            attachments := da.2
            warnings := warnings_global ++ da.1.flatMap (fun d => d.warnings)
            multi_page := multi_page
            root_slug := root_slug })

/-- Index of the first occurrence of a substring. -/
def findSubIdx (s pat : Str) : Option Nat :=
  (List.range (s.length + 1)).find? (fun i => ((s.drop i).take pat.length) = pat)

/-- Index of the first occurrence of a character (Rust `str::find(c)`). -/
def findCharIdx (s : Str) (c : Char) : Option Nat := s.findIdx? (· = c)

/-- Index of the last occurrence of a character (Rust `str::rfind(c)`). -/
def rfindCharIdx (s : Str) (c : Char) : Option Nat :=
  (s.reverse.findIdx? (· = c)).map (fun i => s.length - 1 - i)

/-- The raw-contents alias map of `build_metadata_html`
(`diaryx-core/src/lib.rs`, lines 961–977): normalized target basename →
alias, extracted from the `contents` sequence of the frontmatter mapping
(only for index documents). -/
def rawContentsAliasMap (frontmatter : Yaml) (is_index : Bool) : List (Str × Str) :=
  if ¬ is_index then []
  else
    match frontmatter with
    | Yaml.map m =>
      match lookupAL m (strOf "contents") with
      | some (Yaml.seq seq) =>
        seq.foldl
          (fun acc item =>
            match item with
            | Yaml.str s =>
              match extract_md_link_parts_raw s with
              | some (aliasText, target) =>
                if ¬ aliasText.isEmpty then
                  hmInsert acc (normalize_target_basename_raw target) aliasText
                else acc
              | none => acc
            | _ => acc)
          []
      | _ => []
    | _ => []

/-- The child-link label of `build_metadata_html`
(`diaryx-core/src/lib.rs`, lines 986–993): (1) the Linker-derived alias
for the slug, else (2) the raw-contents alias at key `<slug>.md`, else
(3) the slug itself. -/
def childLabel (child_alias_map alias_map : List (Str × Str)) (slug : Str) : Str :=
  ((lookupAL child_alias_map slug).orElse
    (fun _ => lookupAL alias_map (slug ++ strOf ".md"))).getD slug

/-- The child-link href of `build_metadata_html`
(`diaryx-core/src/lib.rs`, lines 994–1005). -/
def childHref (multi_page flat is_root_index : Bool) (slug : Str) : Str :=
  if multi_page then
    if flat then slug ++ strOf ".html"
    else if is_root_index then strOf "pages/" ++ slug ++ strOf ".html"
    else slug ++ strOf ".html"
  else strOf "index.html"

/-- One child anchor of `build_metadata_html`. -/
def childAnchor (child_alias_map alias_map : List (Str × Str))
    (multi_page flat is_root_index : Bool) (slug : Str) : Str :=
  strOf "<a href=\"" ++ childHref multi_page flat is_root_index slug ++ strOf "\">" ++
    html_escape_text (childLabel child_alias_map alias_map slug) ++ strOf "</a>"

/-- The `child_links` vector of `build_metadata_html`
(`diaryx-core/src/lib.rs`, lines 980–1012): one anchor per child, in child
order (empty unless an index document with children). -/
def childLinks (frontmatter : Yaml) (is_root_index is_index multi_page flat : Bool)
    (children : List Str) (child_alias_map : List (Str × Str)) : List Str :=
  if is_index && ¬ children.isEmpty then
    let alias_map := rawContentsAliasMap frontmatter is_index
    children.map (childAnchor child_alias_map alias_map multi_page flat is_root_index)
  else []

/-- The per-link adjustment applied to `child_links` when rendering the
`contents` key on a nested-layout non-root page (`diaryx-core/src/lib.rs`,
lines 1148–1174): re-extract href and label and strip a leading `pages/`
from the href. -/
def adjustChildLink (link : Str) : Str :=
  match findSubIdx link (strOf "href=\"") with
  | none => link
  | some start =>
    let prefix_cut := link.drop (start + 6)
    match findCharIdx prefix_cut '"' with
    | none => link
    | some endQ =>
      let href := prefix_cut.take endQ
      let label_start := (findCharIdx link '>').getD 0 + 1
      let label_end := (rfindCharIdx link '<').getD link.length
      let label := (link.take label_end).drop label_start
      let adjusted_href := if startsWithS href (strOf "pages/") then href.drop 6 else href
      strOf "<a href=\"" ++ adjusted_href ++ strOf "\">" ++ label ++ strOf "</a>"

/-- The anchor list the `contents` metadata key renders (before the
`<br/>` join), including the nested-layout adjustment
(`diaryx-core/src/lib.rs`, lines 1139–1179).  This is the slice of
`build_metadata_html` that displays an index document's children. -/
def buildMetadataChildLinks (frontmatter : Yaml)
    (is_root_index is_index multi_page flat : Bool)
    (children : List Str) (child_alias_map : List (Str × Str)) : List Str :=
  let links := childLinks frontmatter is_root_index is_index multi_page flat
    children child_alias_map
  if multi_page && ¬ flat then
    if is_root_index then links else links.map adjustChildLink
  else links

end Core

namespace Cli

/-- `FrontmatterRaw` of `src/build/mod.rs` (note: no `reachable` field). -/
structure FrontmatterRaw where
  title : Option Str := none
  author : Option Yaml := none
  created : Option Str := none
  updated : Option Str := none
  visibility : Option Yaml := none
  format : Option Yaml := none
  contents : Option (List Str) := none
  part_of : Option Yaml := none
  version : Option Str := none
  copying : Option Str := none
  checksums : Option Str := none
  banner : Option Str := none
  language : Option Str := none
  tags : Option (List Str) := none
  aliases : Option (List Str) := none
  this_file_is_root_index : Option Bool := none
  starred : Option Bool := none
  pinned : Option Bool := none

instance : Inhabited FrontmatterRaw := ⟨{}⟩

/-- `check_required` of `src/build/mod.rs` (lines 348–367): six fields,
no `reachable` check, and the warning text carries no document
identifier. -/
def check_required (fm : FrontmatterRaw) : List Str :=
  (if fm.title.isNone then [strOf "Missing required field: title"] else []) ++
  (if fm.author.isNone then [strOf "Missing required field: author"] else []) ++
  (if fm.created.isNone then [strOf "Missing required field: created"] else []) ++
  (if fm.updated.isNone then [strOf "Missing required field: updated"] else []) ++
  (if fm.visibility.isNone then [strOf "Missing required field: visibility"] else []) ++
  (if fm.format.isNone then [strOf "Missing required field: format"] else [])

/-- The `DiaryxDoc` struct of `src/build/mod.rs` (the unused `rel_dir`
field is omitted). -/
structure Doc where
  id : Str
  abs_path : Str
  title : Str
  visibility : List Str
  tags : List Str
  aliases : List Str
  is_root_index : Bool
  is_index : Bool
  contents_raw : List Str
  children : List Str
  parents : List Str
  raw_part_of : List Str
  html : Core.Html
  body_md : Str
  frontmatter_raw : Yaml
  warnings : List Str

/-- `DiaryxDoc::is_public`. -/
def Doc.is_public (d : Doc) : Bool := d.visibility.any (fun v => v = strOf "public")

/-- External collaborators for the CLI variant (serde_yaml + markdown). -/
structure Collab where
  yamlParse : Str → Except Str (Yaml × FrontmatterRaw)
  renderMd : Str → Except Str Core.Html

/-- `std::path::Path::extension` on `/`-separated path strings (final
component after the last dot; `none` when the final component has no
dot). -/
def extOf (p : Str) : Option Str :=
  let name := lastSlashPart p
  let ps := splitChar '.' name
  if ps.length ≤ 1 then none else some (ps.getLastD [])

/-- `parse_frontmatter` of `src/build/mod.rs` (same shape as the core's). -/
def parse_frontmatter (C : Collab) (yamlOpt : Option Str) :
    Except Str (Yaml × FrontmatterRaw) :=
  match yamlOpt with
  | none => .ok (Yaml.null, {})
  | some y => if trimS y = [] then .ok (Yaml.null, {}) else C.yamlParse y

/-- Outcome of one queued path in the CLI `collect_documents`; `warnInc`
counts this path's `WARNING_COUNT.fetch_add` increments. -/
inductive LoadOutcome : Type where
  | skip : Nat → LoadOutcome
  | fatal : Str → LoadOutcome
  | loaded : Doc → Nat → LoadOutcome

/-- The per-path body of the CLI `collect_documents` loop
(`src/build/mod.rs`, lines 161–252): skip non-`md` extensions silently,
downgrade read failures to a counted warning, split/parse the header
fatally on failure, and — unlike the core crate — derive the slug from
the *title* (`let slug = slugify(&title)`, lines 205–209). -/
def loadOne (C : Collab) (readFile : Str → Except Str Str) (path : Str) : LoadOutcome :=
  if ((extOf path).map (fun e => decide (asciiLower e ≠ strOf "md"))).getD true then
    .skip 0
  else
    match readFile path with
    | .error _ => .skip 1
    | .ok raw =>
      match Core.split_frontmatter raw with
      | .error _ => .fatal (strOf "Failed splitting frontmatter for " ++ path)
      | .ok split =>
        match parse_frontmatter C split.frontmatter_yaml with
        | .error e => .fatal e
        | .ok (fm_value, fm) =>
          let warnings := check_required fm
          let title := fm.title.getD (lastSlashPart path)
          let slug := Core.slugify title
          match C.renderMd split.body_md with
          | .error _ => .fatal (strOf "Markdown render failure: " ++ path)
          | .ok html =>
            let visibility_norm := Core.normalize_string_or_list fm.visibility
            let contents_norm := Core.normalize_contents fm.contents
            let root_flag := fm.this_file_is_root_index.getD false
            .loaded {
              id := slug
              abs_path := path
              title := title
              visibility := visibility_norm
              tags := fm.tags.getD []
              aliases := fm.aliases.getD []
              is_root_index := root_flag
              is_index := ¬ contents_norm.isEmpty
              contents_raw := contents_norm
              children := []
              parents := []
              raw_part_of := Core.parse_part_of fm.part_of
              html := html
              body_md := split.body_md
              frontmatter_raw := fm_value
              warnings := warnings } warnings.length

/-- The visibility filter of `emit_site` (`src/build/mod.rs`, lines
591–600): keep public documents plus the entry document itself. -/
def emitFilter (include_nonpublic : Bool) (entry : Str) (docs : List Doc) : List Doc :=
  if include_nonpublic then docs
  else docs.filter (fun d => d.is_public || d.abs_path = entry)

/-- The shallow registry clone `clone_doc_shallow` (`src/build/mod.rs`,
lines 1348–1369): heavy fields emptied. -/
def clone_doc_shallow (d : Doc) : Doc :=
  { d with html := [], body_md := [], frontmatter_raw := Yaml.null, warnings := [] }

/-- The process-wide mutable state of `src/build/mod.rs`: the
`WARNING_COUNT` atomic (line 35) and the `GLOBAL_DOCS` registry (lines
1322–1330), threaded explicitly. -/
structure Globals where
  warning_count : Nat
  global_docs : List (Str × Doc)

/-- `set_global_docs` (`src/build/mod.rs`, lines 1332–1346): clear the
registry and re-insert a shallow clone of every document keyed by slug. -/
def set_global_docs (docs : List Doc) (g : Globals) : Globals :=
  { g with global_docs := hmOfList (docs.map (fun d => (d.id, clone_doc_shallow d))) }

/-- `lookup_doc_by_slug` (`src/build/mod.rs`, lines 1378–1380). -/
def lookup_doc_by_slug (g : Globals) (slug : Str) : Option Doc :=
  lookupAL g.global_docs slug

/-- The `WARNING_COUNT` interactions of `run_build`
(`src/build/mod.rs`, lines 41–89): the phases add `emitted` warnings to
the *never reset* process-wide counter via `fetch_add`, `set_global_docs`
overwrites the registry, and strict mode fails iff the *accumulated*
counter is nonzero after this build.  `emitted` abstracts the sum of the
build's own `fetch_add` increments (the phases are embedded separately);
`docs` are this build's documents. -/
def runBuildGlobals (g : Globals) (docs : List Doc) (emitted : Nat) (strict : Bool) :
    Globals × Except Str Unit :=
  let g' := set_global_docs docs { g with warning_count := g.warning_count + emitted }
  (g', if strict && decide (0 < g'.warning_count) then
        .error (strOf "Strict mode: build failed due to warning(s)")
      else .ok ())

end Cli

/-!
## Concrete instantiations used by witnesses and counterexamples

`tableCollab` instantiates the external `serde_yaml`/`markdown`
collaborators on exactly the header/body strings occurring in the
fixtures below (each table entry records what the real library produces
on that input; unknown headers are rejected the way `serde_yaml` rejects
malformed input).  `listFs` is the in-memory `FileProvider` mirroring the
`TestFs` test double of `diaryx-core/src/lib.rs`. -/

namespace Core

/-- Collaborator instantiation by lookup table (see section comment). -/
def tableCollab (yt : List (Str × (Yaml × FrontmatterRaw))) (rt : List (Str × Html)) :
    Collab :=
  { yamlParse := fun s =>
      match lookupAL yt s with
      | some r => .ok r
      | none => .error (strOf "Invalid YAML frontmatter")
    renderMd := fun b => .ok ((lookupAL rt b).getD [HtmlItem.text b]) }

/-- In-memory `FileProvider` over a path→contents table, mirroring the
`TestFs` test double of `diaryx-core/src/lib.rs`. -/
def listFs (files : List (Str × Str)) : FileProvider :=
  { read_to_string := fun p =>
      match lookupAL files p with
      | some s => .ok s
      | none => .error (strOf "not found: " ++ p)
    exists' := fun p => (lookupAL files p).isSome
    is_file := fun p => (lookupAL files p).isSome
    join := fun parent rel =>
      if parent.isEmpty then rel
      else (parent.reverse.dropWhile (· = '/')).reverse ++ strOf "/" ++ rel.dropWhile (· = '/')
    extension_lowercase := fun p =>
      let ps := splitChar '.' (lastSlashPart p)
      if ps.length ≤ 1 then none else some (asciiLower (ps.getLastD []))
    parent := fun p =>
      let ps := splitChar '/' p
      if ps.length ≤ 1 then some [] else some (List.intercalate (strOf "/") ps.dropLast)
    file_name := fun p => some (lastSlashPart p) }

end Core

namespace Fix

open Core

/-- Root-index header of the nested fixture (what `serde_yaml` parses it
to is recorded in `ymlA`/`fmA`). -/
def hdrA : Str := strOf "this_file_is_root_index: true\ncontents:\n- \"[Alpha](alpha.md)\""

/-- serde result for `hdrA`. -/
def fmA : FrontmatterRaw :=
  { this_file_is_root_index := some true, contents := some [strOf "[Alpha](alpha.md)"] }

/-- `serde_yaml::Value` for `hdrA`. -/
def ymlA : Yaml :=
  .map [(strOf "this_file_is_root_index", .bool true),
        (strOf "contents", .seq [.str (strOf "[Alpha](alpha.md)")])]

/-- Non-root index header (document `alpha.md`). -/
def hdrB : Str := strOf "contents:\n- \"[Beta](beta.md)\""

/-- serde result for `hdrB`. -/
def fmB : FrontmatterRaw := { contents := some [strOf "[Beta](beta.md)"] }

/-- `serde_yaml::Value` for `hdrB`. -/
def ymlB : Yaml := .map [(strOf "contents", .seq [.str (strOf "[Beta](beta.md)")])]

/-- Leaf header (document `beta.md`). -/
def hdrC : Str := strOf "title: Beta"

/-- serde result for `hdrC`. -/
def fmC : FrontmatterRaw := { title := some (strOf "Beta") }

/-- `serde_yaml::Value` for `hdrC`. -/
def ymlC : Yaml := .map [(strOf "title", .str (strOf "Beta"))]

/-- Header with all seven required fields and a contents list, for a
non-root entry document (`solo.md`). -/
def hdrS : Str := strOf
  "title: Solo\nauthor: A\ncreated: C\nupdated: U\nvisibility: public\nformat: F\nreachable: R\ncontents:\n- \"[Beta](beta.md)\""

/-- serde result for `hdrS`. -/
def fmS : FrontmatterRaw :=
  { title := some (strOf "Solo"), author := some (.str (strOf "A"))
    created := some (strOf "C"), updated := some (strOf "U")
    visibility := some (.str (strOf "public")), format := some (.str (strOf "F"))
    reachable := some (.str (strOf "R")), contents := some [strOf "[Beta](beta.md)"] }

/-- `serde_yaml::Value` for `hdrS`. -/
def ymlS : Yaml :=
  .map [(strOf "title", .str (strOf "Solo")), (strOf "author", .str (strOf "A")),
        (strOf "created", .str (strOf "C")), (strOf "updated", .str (strOf "U")),
        (strOf "visibility", .str (strOf "public")), (strOf "format", .str (strOf "F")),
        (strOf "reachable", .str (strOf "R")),
        (strOf "contents", .seq [.str (strOf "[Beta](beta.md)")])]

/-- The collaborator table of the fixtures. -/
def fixCollab : Collab :=
  tableCollab
    [(hdrA, (ymlA, fmA)), (hdrB, (ymlB, fmB)), (hdrC, (ymlC, fmC)), (hdrS, (ymlS, fmS))]
    []

/-- The path→contents table of the nested fixture. -/
def fixFiles : List (Str × Str) :=
  [(strOf "index.md", strOf "---\n" ++ hdrA ++ strOf "\n---\nRoot body"),
   (strOf "alpha.md", strOf "---\n" ++ hdrB ++ strOf "\n---\nAlpha body"),
   (strOf "beta.md", strOf "---\n" ++ hdrC ++ strOf "\n---\nBeta body")]

/-- Nested three-document file set: root index → alpha (non-root index) →
beta. -/
def fixFs : FileProvider := listFs fixFiles

/-- One-document file set whose entry is a non-root index. -/
def soloFs : FileProvider := listFs
  [(strOf "solo.md", strOf "---\n" ++ hdrS ++ strOf "\n---\nBody"),
   (strOf "beta.md", strOf "---\n" ++ hdrC ++ strOf "\n---\nBeta body")]

/-- The document `collect_documents` loads from `solo.md`. -/
def dSolo : Doc :=
  { id := strOf "solo"
    abs_path := strOf "solo.md"
    title := strOf "Solo"
    visibility := [strOf "public"]
    tags := []
    aliases := []
    is_root_index := false
    is_index := true
    contents_raw := [strOf "[Beta](beta.md)"]
    raw_part_of := []
    children := []
    parents := []
    child_aliases := []
    parent_aliases := []
    html := [HtmlItem.text (strOf "Body")]
    frontmatter := ymlS
    warnings := []
    body_md := strOf "Body" }

end Fix

namespace Core

/-- The required-field table of the claim: each of the seven field names
paired with whether it is missing from the given frontmatter
(`reachable` by the absent/null/blank/empty-sequence rule). -/
def requiredTable (fm : FrontmatterRaw) : List (Str × Bool) :=
  [(strOf "title", fm.title.isNone), (strOf "author", fm.author.isNone),
   (strOf "created", fm.created.isNone), (strOf "updated", fm.updated.isNone),
   (strOf "visibility", fm.visibility.isNone), (strOf "format", fm.format.isNone),
   (strOf "reachable", reachableMissing fm.reachable)]

/-- Projection: the loaded document of a load outcome. -/
def LoadOutcome.doc? : LoadOutcome → Option Doc
  | .loaded d => some d
  | _ => none

end Core

namespace Cli

/-- The six-field table the CLI variant's `check_required` tests
(no `reachable`). -/
def requiredSixTable (fm : FrontmatterRaw) : List (Str × Bool) :=
  [(strOf "title", fm.title.isNone), (strOf "author", fm.author.isNone),
   (strOf "created", fm.created.isNone), (strOf "updated", fm.updated.isNone),
   (strOf "visibility", fm.visibility.isNone), (strOf "format", fm.format.isNone)]

/-- Projection: the loaded document of a CLI load outcome. -/
def LoadOutcome.doc? : LoadOutcome → Option Doc
  | .loaded d _ => some d
  | _ => none

/-- Collaborator instantiation by lookup table for the CLI variant. -/
def tableCollab (yt : List (Str × (Yaml × FrontmatterRaw))) : Collab :=
  { yamlParse := fun s =>
      match lookupAL yt s with
      | some r => .ok r
      | none => .error (strOf "Invalid YAML frontmatter")
    renderMd := fun b => .ok [Core.HtmlItem.text b] }

end Cli

namespace Fix

open Core

/-- Fixture: header whose YAML is malformed (`serde_yaml` rejects the
unterminated flow sequence `foo: [`), but whose header *block* is
properly terminated. -/
def badFs : FileProvider := listFs [(strOf "e.md", strOf "---\nfoo: [\n---\nbody")]

/-- Collaborator with an empty parse table: every header is rejected the
way `serde_yaml` rejects `foo: [`. -/
def badCollab : Collab := tableCollab [] []

/-- Fixture: a file whose header block is never terminated. -/
def untermFs : FileProvider := listFs [(strOf "u.md", strOf "---\ntitle: X")]

/-- Fixture: a provider whose file exists but cannot be read (I/O
failure on a referenced path). -/
def erroFs : FileProvider :=
  { read_to_string := fun _ => .error (strOf "io error")
    exists' := fun p => p = strOf "e.md"
    is_file := fun p => p = strOf "e.md"
    join := fun parent rel => if parent.isEmpty then rel else parent ++ strOf "/" ++ rel
    extension_lowercase := fun p =>
      let ps := splitChar '.' (lastSlashPart p)
      if ps.length ≤ 1 then none else some (asciiLower (ps.getLastD []))
    parent := fun _ => some []
    file_name := fun p => some (lastSlashPart p) }

/-- Fixture root document for the rewriter (nested layout). -/
def dRoot1 : Doc :=
  { (default : Doc) with
    id := strOf "index"
    abs_path := strOf "index.md"
    is_root_index := true
    html := [.text (strOf "<p>"), .hrefAttr (strOf "alpha.md#sec"), .text (strOf "</p>")] }

/-- Fixture child document for the rewriter. -/
def dAlpha1 : Doc :=
  { (default : Doc) with
    id := strOf "alpha"
    abs_path := strOf "alpha.md"
    html := [.hrefAttr (strOf "index.md"), .hrefAttr (strOf "alpha.md"),
             .hrefAttr (strOf "missing.md"), .hrefAttr (strOf "beta.html")] }

/-- Fixture document with two syntactically different references to the
same physical image. -/
def dAtt : Doc :=
  { (default : Doc) with
    abs_path := strOf "a/doc.md"
    html := [.srcAttr (strOf "img.png"), .srcAttr (strOf "./img.png")] }

/-- The OS for `dAtt`: one regular file `a/img.png`. -/
def osA : OsFs := ⟨[strOf "a/img.png"], []⟩

/-- Fixture nested root referencing `img.png`. -/
def dAttRoot : Doc :=
  { (default : Doc) with
    id := strOf "index"
    abs_path := strOf "r/index.md"
    is_root_index := true
    html := [.srcAttr (strOf "img.png")] }

/-- Fixture nested child referencing the same `img.png` by the same
relative path string. -/
def dAttChild : Doc :=
  { (default : Doc) with
    id := strOf "child"
    abs_path := strOf "r/child.md"
    html := [.srcAttr (strOf "img.png")] }

/-- The OS for the nested attachment fixture. -/
def osR : OsFs := ⟨[strOf "r/img.png"], []⟩

/-- Frontmatter mapping whose contents list is `"[Alias Text](child.md)"`. -/
def ymlC7 : Yaml :=
  .map [(strOf "contents", .seq [.str (strOf "[Alias Text](child.md)")])]

/-- Linker-derived child alias map of the `ymlC7` fixture. -/
def cam7 : List (Str × Str) := [(strOf "child", strOf "Alias Text")]

/-- CLI fixture header: a title that differs from the filename stem. -/
def hdrTitle : Str := strOf "title: My Day"

/-- serde result for `hdrTitle` (CLI struct). -/
def cliFmTitle : Cli.FrontmatterRaw := { title := some (strOf "My Day") }

/-- `serde_yaml::Value` for `hdrTitle`. -/
def ymlTitle : Yaml := .map [(strOf "title", .str (strOf "My Day"))]

/-- CLI fixture header with all six CLI-checked fields present (the CLI
format has no `reachable` key in its struct). -/
def hdrSix : Str :=
  strOf "title: T\nauthor: A\ncreated: C\nupdated: U\nvisibility: public\nformat: F"

/-- serde result for `hdrSix` (CLI struct). -/
def cliFmSix : Cli.FrontmatterRaw :=
  { title := some (strOf "T"), author := some (.str (strOf "A"))
    created := some (strOf "C"), updated := some (strOf "U")
    visibility := some (.str (strOf "public")), format := some (.str (strOf "F")) }

/-- `serde_yaml::Value` for `hdrSix`. -/
def ymlSix : Yaml :=
  .map [(strOf "title", .str (strOf "T")), (strOf "author", .str (strOf "A")),
        (strOf "created", .str (strOf "C")), (strOf "updated", .str (strOf "U")),
        (strOf "visibility", .str (strOf "public")), (strOf "format", .str (strOf "F"))]

/-- serde result for `hdrSix` read through the *core* struct (same six
fields set; `reachable` absent). -/
def coreFmSix : Core.FrontmatterRaw :=
  { title := some (strOf "T"), author := some (.str (strOf "A"))
    created := some (strOf "C"), updated := some (strOf "U")
    visibility := some (.str (strOf "public")), format := some (.str (strOf "F")) }

/-- CLI collaborator table for the fixtures. -/
def cliCollabFix : Cli.Collab :=
  Cli.tableCollab [(hdrTitle, (ymlTitle, cliFmTitle)), (hdrSix, (ymlSix, cliFmSix))]

/-- CLI read table: `fs::read_to_string` on the fixture files. -/
def cliReadFix : Str → Except Str Str := fun p =>
  if p = strOf "notes.md" then .ok (strOf "---\ntitle: My Day\n---\nBody")
  else if p = strOf "six.md" then .ok (strOf "---\n" ++ hdrSix ++ strOf "\n---\nB")
  else .error (strOf "not found")

/-- The document the CLI loader produces from `notes.md` (note the id
derived from the title, not the filename stem). -/
def dNotes : Cli.Doc :=
  { id := strOf "my-day"
    abs_path := strOf "notes.md"
    title := strOf "My Day"
    visibility := []
    tags := []
    aliases := []
    is_root_index := false
    is_index := false
    contents_raw := []
    children := []
    parents := []
    raw_part_of := []
    html := [HtmlItem.text (strOf "Body")]
    body_md := strOf "Body"
    frontmatter_raw := ymlTitle
    warnings := [strOf "Missing required field: author",
                 strOf "Missing required field: created",
                 strOf "Missing required field: updated",
                 strOf "Missing required field: visibility",
                 strOf "Missing required field: format"] }

/-- Root index whose rendered href carries an `.md` query suffix. -/
def dIdemR : Core.Doc :=
  { (default : Core.Doc) with
    id := strOf "root"
    abs_path := strOf "r/root.md"
    is_root_index := true
    html := [.hrefAttr (strOf "root.md?x.md")] }

/-- A loaded document whose basename is `index.html` (a contents link may
target any existing file; `resolve_contents_link` does not require the
`.md` extension). -/
def dIdemX : Core.Doc :=
  { (default : Core.Doc) with
    id := strOf "index"
    abs_path := strOf "r/index.html"
    html := [] }

end Fix

/-- Collaborators are well-formed for a provider: every readable file has
a terminated header block, every non-blank header parses, and every body
renders.  (Under these conditions the claim asserts loading can never
abort.) -/
def WellFormed (C : Core.Collab) (fs : Core.FileProvider) : Prop :=
  ∀ p s, fs.read_to_string p = .ok s →
    ∃ sp, Core.split_frontmatter s = .ok sp ∧
      (∀ y, sp.frontmatter_yaml = some y → ¬ trimS y = [] →
        ∃ r, C.yamlParse y = .ok r) ∧
      ∃ h, C.renderMd sp.body_md = .ok h

/-!
## Theorems
-/

/-- Helper: a successful association-list lookup comes from a member. -/
theorem lookupAL_mem {α : Type} (m : List (Str × α)) (k : Str) (v : α)
    (h : lookupAL m k = some v) : (k, v) ∈ m := by
  induction m with
  | nil => simp [lookupAL] at h
  | cons p rest ih =>
    rcases p with ⟨k', v'⟩
    by_cases hk : k' = k
    · subst hk
      simp [lookupAL] at h
      subst h
      exact List.mem_cons_self _ _
    · simp [lookupAL, hk] at h
      exact List.mem_cons_of_mem _ (ih h)

/-- Helper: a loaded document records its own path, and its id is the
slugified stem of the provider's file name (falling back to the title). -/
theorem loadOne_abs (C : Core.Collab) (fs : Core.FileProvider) (p : Str) (d : Core.Doc)
    (h : Core.loadOne C fs p = .loaded d) : d.abs_path = p ∧
      d.id = Core.slugify (stemOf ((fs.file_name p).getD d.title)) := by
  unfold Core.loadOne at h
  repeat' split at h
  all_goals cases h
  all_goals exact ⟨rfl, rfl⟩

/-- Helper: the CLI loader derives the id from the document *title*. -/
theorem cli_loadOne_id (C : Cli.Collab) (rf : Str → Except Str Str) (p : Str)
    (d : Cli.Doc) (n : Nat) (h : Cli.loadOne C rf p = .loaded d n) :
    d.id = Core.slugify d.title := by
  unfold Cli.loadOne at h
  repeat' split at h
  all_goals cases h
  all_goals rfl

/-- Helper: every document returned by the traversal loop was produced by
`loadOne` at its own path. -/
theorem collectGo_sound (C : Core.Collab) (fs : Core.FileProvider) (entry : Str) :
    ∀ (fuel : Nat) (q : List Str) (visited : List (Str × Core.Doc))
      (order warns : List Str) (docs : List Core.Doc) (w : List Str),
      (∀ pr ∈ visited, Core.loadOne C fs pr.1 = .loaded pr.2) →
      Core.collectGo C fs entry fuel q visited order warns = some (.ok (docs, w)) →
      ∀ d ∈ docs, Core.loadOne C fs d.abs_path = .loaded d := by
  intro fuel
  induction fuel with
  | zero =>
    intro q visited order warns docs w hinv hrun d hd
    cases q with
    | nil =>
      simp [Core.collectGo] at hrun
      obtain ⟨h1, _⟩ := hrun
      subst h1
      obtain ⟨p, _, hp⟩ := List.mem_filterMap.mp hd
      have hmem := lookupAL_mem _ _ _ hp
      have hld := hinv _ hmem
      have habs := (loadOne_abs C fs p d hld).1
      rw [habs]
      exact hld
    | cons p rest => simp [Core.collectGo] at hrun
  | succ fuel ih =>
    intro q visited order warns docs w hinv hrun d hd
    cases q with
    | nil =>
      simp [Core.collectGo] at hrun
      obtain ⟨h1, _⟩ := hrun
      subst h1
      obtain ⟨p, _, hp⟩ := List.mem_filterMap.mp hd
      have hmem := lookupAL_mem _ _ _ hp
      have hld := hinv _ hmem
      have habs := (loadOne_abs C fs p d hld).1
      rw [habs]
      exact hld
    | cons p rest =>
      rw [Core.collectGo] at hrun
      by_cases hv : (lookupAL visited p).isSome
      · simp only [hv, if_true] at hrun
        exact ih rest visited order warns docs w hinv hrun d hd
      · simp only [hv, if_false, Bool.false_eq_true] at hrun
        split at hrun
        · exact ih _ _ _ _ docs w hinv hrun d hd
        · cases hrun
        · rename_i doc heq
          have hinv' : ∀ pr ∈ visited ++ [(p, doc)],
              Core.loadOne C fs pr.1 = Core.LoadOutcome.loaded pr.2 := by
            intro pr hpr
            rcases List.mem_append.mp hpr with hmem | hmem
            · exact hinv _ hmem
            · simp at hmem
              subst hmem
              exact heq
          split at hrun
          · split at hrun
            · exact ih _ _ _ _ docs w hinv' hrun d hd
            · exact ih _ _ _ _ docs w hinv' hrun d hd
          · exact ih _ _ _ _ docs w hinv' hrun d hd

/-- Helper: the traversal loop on an empty queue returns the documents in
traversal order with the accumulated warnings, for any fuel. -/
theorem collectGo_nil (C : Core.Collab) (fs : Core.FileProvider) (entry : Str)
    (fuel : Nat) (visited : List (Str × Core.Doc)) (order warns : List Str) :
    Core.collectGo C fs entry fuel [] visited order warns =
      some (.ok (order.filterMap (lookupAL visited), warns)) := by
  cases fuel <;> rfl

/-- C2: the recursion gate.  (1) If the entry document loads and is not
the root index, nothing beyond it is ever traversed — in particular no
document's content list is expanded, regardless of how many entries those
lists hold.  (2) In the nested fixture, a *non-root* index (`alpha.md`)
reached transitively under a root-index entry still expands its own
contents (`beta.md` is loaded). -/
theorem c2_recursion_gate :
    (∀ (C : Core.Collab) (fs : Core.FileProvider) (entry : Str) (fuel : Nat)
      (docs : List Core.Doc) (w : List Str) (d : Core.Doc),
      Core.collect_documents C fs entry fuel = some (.ok (docs, w)) →
      d ∈ docs → d.abs_path = entry → d.is_root_index = false →
      docs = [d])
    ∧ ((match Core.collect_documents Fix.fixCollab Fix.fixFs (strOf "index.md") 9 with
        | some (.ok (docs, _)) =>
            some (docs.map (fun d => (d.abs_path, d.is_root_index, d.is_index)))
        | _ => none) =
       some [(strOf "index.md", true, true), (strOf "alpha.md", false, true),
             (strOf "beta.md", false, false)]) := by
  refine ⟨?_, by rfl⟩
  intro C fs entry fuel docs w d hrun hd habs hroot
  unfold Core.collect_documents at hrun
  cases fuel with
  | zero => cases hrun
  | succ fuel =>
    rw [Core.collectGo] at hrun
    simp only [lookupAL, Option.isSome_none, Bool.false_eq_true, if_false] at hrun
    split at hrun
    · rw [collectGo_nil] at hrun
      simp at hrun
      obtain ⟨h1, _⟩ := hrun
      subst h1
      cases hd
    · cases hrun
    · rename_i doc heq
      have hinv' : ∀ pr ∈ ([] : List (Str × Core.Doc)) ++ [(entry, doc)],
          Core.loadOne C fs pr.1 = Core.LoadOutcome.loaded pr.2 := by
        intro pr hpr
        simp at hpr
        subst hpr
        exact heq
      have hde : d = doc := by
        have hsound : Core.loadOne C fs d.abs_path = .loaded d := by
          split at hrun
          · split at hrun
            · exact collectGo_sound C fs entry _ _ _ _ _ docs w hinv' hrun d hd
            · exact collectGo_sound C fs entry _ _ _ _ _ docs w hinv' hrun d hd
          · exact collectGo_sound C fs entry _ _ _ _ _ docs w hinv' hrun d hd
        rw [habs] at hsound
        rw [heq] at hsound
        injection hsound with h
        exact h.symm
      subst hde
      have hgate : (d.is_index &&
          (d.is_root_index ||
            Core.entry_metadata_had_root entry ([] ++ [(entry, d)]))) = false := by
        have hm : Core.entry_metadata_had_root entry ([] ++ [(entry, d)]) =
            d.is_root_index := by
          simp [Core.entry_metadata_had_root, lookupAL]
        rw [hm, hroot]
        simp
      rw [hgate] at hrun
      simp only [Bool.false_eq_true, if_false] at hrun
      rw [collectGo_nil] at hrun
      simp [lookupAL] at hrun
      obtain ⟨h1, _⟩ := hrun
      subst h1
      rfl

/-- C2 witness: the non-root entry `solo.md` (whose content list names an
existing file) loads alone; applying the gate theorem to it confirms the
single-document result. -/
theorem c2_recursion_gate_witness :
    Core.collect_documents Fix.fixCollab Fix.soloFs (strOf "solo.md") 3 =
      some (.ok ([Fix.dSolo], []))
    ∧ Fix.dSolo.is_root_index = false
    ∧ Fix.dSolo.contents_raw ≠ []
    ∧ [Fix.dSolo] = [Fix.dSolo] := by
  refine ⟨rfl, rfl, by decide, ?_⟩
  exact c2_recursion_gate.1 Fix.fixCollab Fix.soloFs (strOf "solo.md") 3
    [Fix.dSolo] [] Fix.dSolo rfl (by simp) rfl rfl

/-- C6 (amended): the CLI build subsystem is *not* stateless between
invocations: `run_build` adds this build's warnings to the process-wide,
never-reset `WARNING_COUNT`, overwrites the process-wide `GLOBAL_DOCS`
registry, and strict mode fails iff the *accumulated* counter is nonzero
— so a build's outcome depends on the globals left by earlier builds in
the same process. -/
theorem c6_cli_global_state :
    (∀ (g : Cli.Globals) (docs : List Cli.Doc) (emitted : Nat) (strict : Bool),
      (Cli.runBuildGlobals g docs emitted strict).1.warning_count =
        g.warning_count + emitted
      ∧ ((Cli.runBuildGlobals g docs emitted strict).2 = .ok () ↔
          (strict = true → g.warning_count + emitted = 0))
      ∧ (Cli.runBuildGlobals g docs emitted strict).1.global_docs =
          hmOfList (docs.map (fun d => (d.id, Cli.clone_doc_shallow d))))
    ∧ (Cli.runBuildGlobals ⟨1, []⟩ [] 0 true).2 ≠
        (Cli.runBuildGlobals ⟨0, []⟩ [] 0 true).2 := by
  constructor
  · intro g docs emitted strict
    refine ⟨rfl, ?_, rfl⟩
    cases strict with
    | false => simp [Cli.runBuildGlobals]
    | true =>
      by_cases hz : g.warning_count + emitted = 0
      · simp [Cli.runBuildGlobals, Cli.set_global_docs, hz]
      · simp [Cli.runBuildGlobals, Cli.set_global_docs, Nat.pos_of_ne_zero hz, hz]
  · simp [Cli.runBuildGlobals, Cli.set_global_docs]

/-- C6 counterexample: two sequential builds in one process interfere
through the never-reset warning counter: a warning-free strict build
succeeds from a fresh process but fails when run after a build that
recorded one warning. -/
theorem c6_builds_interfere :
    (Cli.runBuildGlobals ⟨0, []⟩ [] 1 false).2 = .ok ()
    ∧ (Cli.runBuildGlobals ((Cli.runBuildGlobals ⟨0, []⟩ [] 1 false).1) [] 0 true).2 =
        .error (strOf "Strict mode: build failed due to warning(s)")
    ∧ (Cli.runBuildGlobals ⟨0, []⟩ [] 0 true).2 = .ok () := ⟨rfl, rfl, rfl⟩

/-- Helper: every character of `slugify`'s collapse phase is a slug
character or a hyphen. -/
theorem collapseGo_chars (c : Char) :
    ∀ (b : Bool) (l : Str), c ∈ Core.slugify.collapseGo b l →
      (Core.isSlugChar c || (c = '-')) = true := by
  intro b l
  induction l generalizing b with
  | nil => intro h; cases h
  | cons a t ih =>
    intro h
    rw [Core.slugify.collapseGo] at h
    by_cases ha : Core.isSlugChar a
    · rw [if_pos ha] at h
      rcases List.mem_cons.mp h with h | h
      · subst h
        simp [ha]
      · exact ih _ h
    · rw [if_neg ha] at h
      cases b with
      | true => exact ih _ (by simpa using h)
      | false =>
        simp only [Bool.false_eq_true, if_false] at h
        rcases List.mem_cons.mp h with h | h
        · subst h
          simp
        · exact ih _ h

/-- C8 (amended): the core loader's slug is derived from the filename
stem (lowercased, non-`[a-z0-9]` runs collapsed to single hyphens,
hyphens trimmed), whereas the CLI build variant derives the slug from the
document *title* by the same normalization. -/
theorem c8_slug_from_stem_vs_title :
    (∀ (C : Core.Collab) (fs : Core.FileProvider) (entry : Str) (fuel : Nat)
      (docs : List Core.Doc) (w : List Str) (d : Core.Doc),
      Core.collect_documents C fs entry fuel = some (.ok (docs, w)) →
      d ∈ docs →
      d.id = Core.slugify (stemOf ((fs.file_name d.abs_path).getD d.title)))
    ∧ (∀ (C : Cli.Collab) (rf : Str → Except Str Str) (p : Str) (d : Cli.Doc) (n : Nat),
      Cli.loadOne C rf p = .loaded d n → d.id = Core.slugify d.title)
    ∧ (∀ (s : Str) (c : Char), c ∈ Core.slugify s →
        (Core.isSlugChar c || (c = '-')) = true)
    ∧ Core.slugify (strOf "My Day_2025!!") = strOf "my-day-2025"
    ∧ Core.slugify (strOf "--Weird  Name--") = strOf "weird-name" := by
  refine ⟨?_, ?_, ?_, by decide, by decide⟩
  · intro C fs entry fuel docs w d hrun hd
    have hsound : Core.loadOne C fs d.abs_path = .loaded d := by
      unfold Core.collect_documents at hrun
      exact collectGo_sound C fs entry fuel [entry] [] [] [] docs w
        (by intro pr hpr; cases hpr) hrun d hd
    have h2 := (loadOne_abs C fs d.abs_path d hsound).2
    rw [(loadOne_abs C fs d.abs_path d hsound).1] at h2
    rw [← (loadOne_abs C fs d.abs_path d hsound).1] at h2
    exact h2
  · exact cli_loadOne_id
  · intro s c hc
    unfold Core.slugify at hc
    unfold trimMatches at hc
    have h1 := List.mem_reverse.mp hc
    have h2 := (List.dropWhile_sublist _).mem h1
    have h3 := List.mem_reverse.mp h2
    have h4 := (List.dropWhile_sublist _).mem h3
    exact collapseGo_chars c false _ h4

/-- C8 witness: the core loader gives `solo.md` the slug `solo` (its
filename stem), and the CLI loader gives `notes.md` — titled "My Day" —
the slug `my-day` (its slugified title). -/
theorem c8_slug_witness :
    Core.collect_documents Fix.fixCollab Fix.soloFs (strOf "solo.md") 3 =
      some (.ok ([Fix.dSolo], []))
    ∧ Fix.dSolo.id =
        Core.slugify (stemOf ((Fix.soloFs.file_name Fix.dSolo.abs_path).getD
          Fix.dSolo.title))
    ∧ Cli.loadOne Fix.cliCollabFix Fix.cliReadFix (strOf "notes.md") =
        .loaded Fix.dNotes 5
    ∧ Fix.dNotes.id = Core.slugify Fix.dNotes.title := by
  refine ⟨rfl, ?_, rfl, ?_⟩
  · exact c8_slug_from_stem_vs_title.1 Fix.fixCollab Fix.soloFs (strOf "solo.md") 3
      [Fix.dSolo] [] Fix.dSolo rfl (by simp)
  · exact c8_slug_from_stem_vs_title.2.1 Fix.cliCollabFix Fix.cliReadFix
      (strOf "notes.md") Fix.dNotes 5 rfl

/-- C8 counterexample: the CLI variant loads `notes.md` (titled
"My Day") with slug `my-day`, which differs from the slugified filename
stem `notes` — the claim's "slug equals the filename stem" fails on the
CLI loader. -/
theorem c8_cli_slug_from_title :
    ((Cli.loadOne Fix.cliCollabFix Fix.cliReadFix (strOf "notes.md")).doc?.map
        (fun d => d.id)) = some (strOf "my-day")
    ∧ Core.slugify (stemOf (lastSlashPart (strOf "notes.md"))) = strOf "notes"
    ∧ strOf "my-day" ≠ strOf "notes" := ⟨rfl, rfl, by decide⟩

/-- C7: the `contents` metadata fragment of an index document with
children emits exactly one anchor per child, in child order, whose label
follows the precedence (1) Linker-derived alias for the slug, (2) alias
recovered from the raw content-list literal's normalized target basename
at key `<slug>.md`, (3) the slug itself; and in the concrete fixture a
content entry `"[Alias Text](child.md)"` yields a metadata link labeled
"Alias Text", never the raw slug `child` (nested non-root layout shown,
where the `pages/`-stripping adjustment applies). -/
theorem c7_child_alias_precedence :
    (∀ (fm : Yaml) (ir mp fl : Bool) (children : List Str) (cam : List (Str × Str)),
      children ≠ [] →
      Core.childLinks fm ir true mp fl children cam =
        children.map (fun slug =>
          strOf "<a href=\"" ++
            (if mp then
              (if fl then slug ++ strOf ".html"
               else if ir then strOf "pages/" ++ slug ++ strOf ".html"
               else slug ++ strOf ".html")
             else strOf "index.html") ++ strOf "\">" ++
          Core.html_escape_text
            (((lookupAL cam slug).orElse
              (fun _ => lookupAL (Core.rawContentsAliasMap fm true)
                (slug ++ strOf ".md"))).getD slug) ++ strOf "</a>"))
    ∧ (∀ (cam am : List (Str × Str)) (slug a : Str),
        lookupAL cam slug = some a → Core.childLabel cam am slug = a)
    ∧ (∀ (cam am : List (Str × Str)) (slug a : Str),
        lookupAL cam slug = none → lookupAL am (slug ++ strOf ".md") = some a →
        Core.childLabel cam am slug = a)
    ∧ (∀ (cam am : List (Str × Str)) (slug : Str),
        lookupAL cam slug = none → lookupAL am (slug ++ strOf ".md") = none →
        Core.childLabel cam am slug = slug)
    ∧ (Core.buildMetadataChildLinks Fix.ymlC7 false true true false
        [strOf "child"] Fix.cam7 = [strOf "<a href=\"child.html\">Alias Text</a>"])
    ∧ strOf "Alias Text" ≠ strOf "child" := by
  refine ⟨?_, ?_, ?_, ?_, by decide, by decide⟩
  · intro fm ir mp fl children cam hne
    unfold Core.childLinks
    rw [if_pos]
    · rfl
    · simp [List.isEmpty_iff, hne]
  · intro cam am slug a h
    simp [Core.childLabel, h, Option.orElse]
  · intro cam am slug a h1 h2
    simp [Core.childLabel, h1, h2, Option.orElse]
  · intro cam am slug h1 h2
    simp [Core.childLabel, h1, h2, Option.orElse]

/-- C7 witness: the fragment theorem applied to the fixture — one link
for the single child, labeled by the Linker-derived alias. -/
theorem c7_child_alias_witness :
    Core.childLinks Fix.ymlC7 false true true false [strOf "child"] Fix.cam7 =
      [strOf "<a href=\"" ++ strOf "child.html" ++ strOf "\">" ++
        Core.html_escape_text (strOf "Alias Text") ++ strOf "</a>"]
    ∧ Core.childLabel Fix.cam7 (Core.rawContentsAliasMap Fix.ymlC7 true)
        (strOf "child") = strOf "Alias Text" := by
  constructor
  · have h := c7_child_alias_precedence.1 Fix.ymlC7 false true false
      [strOf "child"] Fix.cam7 (by decide)
    rw [h]
    rfl
  · exact c7_child_alias_precedence.2.1 Fix.cam7 _ (strOf "child")
      (strOf "Alias Text") rfl

/-- C1: the internal-link rewrite table.  Rewriting is per-document and
per-`href`-attribute; an `href` whose value matches the page-extension
pattern (ends case-insensitively in `.md`, optionally followed by a
query/fragment) and whose %20-decoded basename resolves against the
loaded documents is replaced according to the layout table — nested
root→root `index.html`, root→child `pages/{slug}.html`, child→root
`../index.html`, child→sibling `{slug}.html`; flat root `index.html`
else `{slug}.html`; single page always `index.html` — with the
query/fragment suffix appended verbatim; unresolved or non-matching
references are left unmodified. -/
theorem c1_link_rewrite_table :
    (∀ (docs : List Core.Doc) (opts : Core.CoreBuildOptions), docs ≠ [] →
      Core.rewrite_internal_links docs opts =
        docs.map (Core.rewriteDoc (Core.byBasename docs)
          ((docs.any (fun d => d.is_root_index)) && decide (1 < docs.length))
          opts.flat))
    ∧ (∀ (bb : List (Str × (Str × Bool))) (mp fl cr : Bool) (v slug : Str) (tr : Bool),
        Core.matchesMdHref v = true →
        lookupAL bb (decodeP20 (lastSlashPart (coreOfUrl v))) = some (slug, tr) →
        Core.rewriteItem bb mp fl cr (.hrefAttr v) = .hrefAttr
          ((if mp && ¬ fl then
              if cr then
                if tr then strOf "index.html" else strOf "pages/" ++ slug ++ strOf ".html"
              else
                if tr then strOf "../index.html" else slug ++ strOf ".html"
            else if mp then
              if tr then strOf "index.html" else slug ++ strOf ".html"
            else strOf "index.html") ++ suffixOfUrl v))
    ∧ (∀ (bb : List (Str × (Str × Bool))) (mp fl cr : Bool) (v : Str),
        Core.matchesMdHref v = true →
        lookupAL bb (decodeP20 (lastSlashPart (coreOfUrl v))) = none →
        Core.rewriteItem bb mp fl cr (.hrefAttr v) = .hrefAttr v)
    ∧ (∀ (bb : List (Str × (Str × Bool))) (mp fl cr : Bool) (v : Str),
        Core.matchesMdHref v = false →
        Core.rewriteItem bb mp fl cr (.hrefAttr v) = .hrefAttr v)
    ∧ (∀ (core sfx : Str), endsWithCI core (strOf ".md") = true →
        4 ≤ core.length →
        (sfx = [] ∨ ∃ c rest, sfx = c :: rest ∧ (c = '?' ∨ c = '#')) →
        Core.matchesMdHref (core ++ sfx) = true) := by
  refine ⟨?_, ?_, ?_, ?_, ?_⟩
  · intro docs opts hne
    unfold Core.rewrite_internal_links
    rw [if_neg]
    simp [List.isEmpty_iff, hne]
  · intro bb mp fl cr v slug tr hm hl
    simp [Core.rewriteItem, Core.rewriteHrefValue, hm, hl, Core.newHrefFor]
  · intro bb mp fl cr v hm hl
    simp [Core.rewriteItem, Core.rewriteHrefValue, hm, hl]
  · intro bb mp fl cr v hm
    simp [Core.rewriteItem, Core.rewriteHrefValue, hm]
  · intro core sfx hend hlen hsfx
    unfold Core.matchesMdHref
    rw [List.any_eq_true]
    refine ⟨core.length, ?_, ?_⟩
    · rw [List.mem_range]
      simp only [List.length_append]
      omega
    · rw [List.take_left, List.drop_left]
      rcases hsfx with h | ⟨c, rest, h, hc⟩
      · subst h
        simp [hlen, hend]
      · subst h
        rcases hc with h | h <;> subst h <;> simp [hlen, hend]

/-- C1 witness: the table theorem applied to a two-document nested
layout: the root's `alpha.md#sec` link becomes `pages/alpha.html#sec`
(fragment preserved), the child's `index.md` link becomes
`../index.html`, its sibling link `alpha.md` becomes `alpha.html`, and
the unresolved `missing.md` and non-`.md` `beta.html` hrefs are left
unmodified. -/
theorem c1_link_rewrite_witness :
    Core.rewriteItem (Core.byBasename [Fix.dRoot1, Fix.dAlpha1]) true false true
        (.hrefAttr (strOf "alpha.md#sec")) =
      .hrefAttr (strOf "pages/alpha.html#sec")
    ∧ Core.rewriteItem (Core.byBasename [Fix.dRoot1, Fix.dAlpha1]) true false false
        (.hrefAttr (strOf "index.md")) = .hrefAttr (strOf "../index.html")
    ∧ Core.rewriteItem (Core.byBasename [Fix.dRoot1, Fix.dAlpha1]) true false false
        (.hrefAttr (strOf "missing.md")) = .hrefAttr (strOf "missing.md")
    ∧ Core.rewriteItem (Core.byBasename [Fix.dRoot1, Fix.dAlpha1]) true false false
        (.hrefAttr (strOf "beta.html")) = .hrefAttr (strOf "beta.html")
    ∧ Core.rewrite_internal_links [Fix.dRoot1, Fix.dAlpha1] {} =
        [Fix.dRoot1, Fix.dAlpha1].map
          (Core.rewriteDoc (Core.byBasename [Fix.dRoot1, Fix.dAlpha1]) true false) := by
  refine ⟨?_, ?_, ?_, ?_, ?_⟩
  · have h := c1_link_rewrite_table.2.1 (Core.byBasename [Fix.dRoot1, Fix.dAlpha1])
      true false true (strOf "alpha.md#sec") (strOf "alpha") false (by decide) (by decide)
    rw [h]
    rfl
  · have h := c1_link_rewrite_table.2.1 (Core.byBasename [Fix.dRoot1, Fix.dAlpha1])
      true false false (strOf "index.md") (strOf "index") true (by decide) (by decide)
    rw [h]
    rfl
  · exact c1_link_rewrite_table.2.2.1 _ true false false (strOf "missing.md")
      (by decide) (by decide)
  · exact c1_link_rewrite_table.2.2.2.1 _ true false false (strOf "beta.html")
      (by decide)
  · have h := c1_link_rewrite_table.1 [Fix.dRoot1, Fix.dAlpha1] {} (by simp)
    rw [h]
    rfl

/-- Helper: with well-formed collaborators, `loadOne` never aborts. -/
theorem loadOne_not_fatal (C : Core.Collab) (fs : Core.FileProvider)
    (hwf : WellFormed C fs) (p : Str) (m : Str) :
    Core.loadOne C fs p ≠ .fatal m := by
  intro habs
  unfold Core.loadOne at habs
  by_cases he : fs.exists' p = true
  · by_cases hf : fs.is_file p = true
    · cases hx : fs.extension_lowercase p with
      | none => simp [he, hf, hx] at habs
      | some ext =>
        by_cases hmd : ext = strOf "md"
        · cases hr : fs.read_to_string p with
          | error e => simp [he, hf, hx, hmd, hr] at habs
          | ok raw =>
            obtain ⟨sp, hsp, hy, h, hh⟩ := hwf p raw hr
            have hpf : ∃ r, Core.parse_frontmatter C sp.frontmatter_yaml = .ok r := by
              unfold Core.parse_frontmatter
              cases hfy : sp.frontmatter_yaml with
              | none => exact ⟨_, rfl⟩
              | some y =>
                by_cases ht : trimS y = []
                · simp [ht]
                · obtain ⟨r, hr2⟩ := hy y hfy ht
                  simp [ht, hr2]
            obtain ⟨r, hpf⟩ := hpf
            rcases r with ⟨fv1, fv2⟩
            simp [he, hf, hx, hmd, hr, hsp, hpf, hh] at habs
        · simp [he, hf, hx, hmd] at habs
    · simp [he, hf] at habs
  · simp [he] at habs

/-- Helper: with well-formed collaborators, the traversal loop never
returns an error. -/
theorem collectGo_no_error (C : Core.Collab) (fs : Core.FileProvider) (entry : Str)
    (hwf : WellFormed C fs) :
    ∀ (fuel : Nat) (q : List Str) (visited : List (Str × Core.Doc))
      (order warns : List Str) (e : Str),
      Core.collectGo C fs entry fuel q visited order warns ≠ some (.error e) := by
  intro fuel
  induction fuel with
  | zero =>
    intro q visited order warns e habs
    cases q with
    | nil => simp [Core.collectGo] at habs
    | cons p rest => simp [Core.collectGo] at habs
  | succ fuel ih =>
    intro q visited order warns e habs
    cases q with
    | nil => simp [Core.collectGo] at habs
    | cons p rest =>
      rw [Core.collectGo] at habs
      by_cases hv : (lookupAL visited p).isSome
      · simp only [hv, if_true] at habs
        exact ih rest visited order warns e habs
      · simp only [hv, if_false, Bool.false_eq_true] at habs
        split at habs
        · exact ih _ _ _ _ e habs
        · rename_i m heq
          exact loadOne_not_fatal C fs hwf p m heq
        · split at habs
          · split at habs
            · exact ih _ _ _ _ e habs
            · exact ih _ _ _ _ e habs
          · exact ih _ _ _ _ e habs

/-- Helper: the fixture collaborators are well-formed for the nested
fixture file set. -/
theorem fix_wellFormed : WellFormed Fix.fixCollab Fix.fixFs := by
  intro p s h
  have hl : lookupAL Fix.fixFiles p = some s := by
    revert h
    unfold Fix.fixFs Core.listFs
    cases hx : lookupAL Fix.fixFiles p with
    | none => intro h; simp [hx] at h
    | some s' =>
      intro h
      simp [hx] at h
      subst h
      rfl
  have hmem := lookupAL_mem _ _ _ hl
  unfold Fix.fixFiles at hmem
  simp only [List.mem_cons, List.not_mem_nil, or_false] at hmem
  rcases hmem with h1 | h1 | h1
  · rcases Prod.mk.injEq .. ▸ h1 with ⟨hp, hs⟩
    subst hp; subst hs
    exact ⟨⟨some Fix.hdrA, strOf "Root body"⟩, rfl,
      fun y hy2 _ => by
        injection hy2 with hy3
        rw [← hy3]
        exact ⟨(Fix.ymlA, Fix.fmA), rfl⟩,
      ⟨[Core.HtmlItem.text (strOf "Root body")], rfl⟩⟩
  · rcases Prod.mk.injEq .. ▸ h1 with ⟨hp, hs⟩
    subst hp; subst hs
    exact ⟨⟨some Fix.hdrB, strOf "Alpha body"⟩, rfl,
      fun y hy2 _ => by
        injection hy2 with hy3
        rw [← hy3]
        exact ⟨(Fix.ymlB, Fix.fmB), rfl⟩,
      ⟨[Core.HtmlItem.text (strOf "Alpha body")], rfl⟩⟩
  · rcases Prod.mk.injEq .. ▸ h1 with ⟨hp, hs⟩
    subst hp; subst hs
    exact ⟨⟨some Fix.hdrC, strOf "Beta body"⟩, rfl,
      fun y hy2 _ => by
        injection hy2 with hy3
        rw [← hy3]
        exact ⟨(Fix.ymlC, Fix.fmC), rfl⟩,
      ⟨[Core.HtmlItem.text (strOf "Beta body")], rfl⟩⟩

/-- C3 (amended): loading aborts only on an unterminated header block, a
header the YAML parser rejects, or a body the renderer rejects — with
well-formed collaborators it never aborts; an unterminated header on the
entry is fatal; and an I/O read failure on a traversed path merely
appends a global warning and skips the path (traversal continues). -/
theorem c3_fatal_only_bad_header :
    (∀ (C : Core.Collab) (fs : Core.FileProvider) (entry : Str) (fuel : Nat),
      WellFormed C fs →
      ∀ e, Core.collect_documents C fs entry fuel ≠ some (.error e))
    ∧ (∀ (C : Core.Collab) (fs : Core.FileProvider) (entry : Str) (fuel : Nat)
        (raw em : Str),
        fs.exists' entry = true → fs.is_file entry = true →
        fs.extension_lowercase entry = some (strOf "md") →
        fs.read_to_string entry = .ok raw →
        Core.split_frontmatter raw = .error em →
        Core.collect_documents C fs entry (fuel + 1) =
          some (.error (strOf "Split frontmatter failed: " ++ entry)))
    ∧ (∀ (C : Core.Collab) (fs : Core.FileProvider) (entry : Str) (fuel : Nat)
        (path e : Str) (rest : List Str) (visited : List (Str × Core.Doc))
        (order warns : List Str),
        lookupAL visited path = none →
        fs.exists' path = true → fs.is_file path = true →
        fs.extension_lowercase path = some (strOf "md") →
        fs.read_to_string path = .error e →
        Core.collectGo C fs entry (fuel + 1) (path :: rest) visited order warns =
          Core.collectGo C fs entry fuel rest visited order
            (warns ++ [strOf "Failed to read " ++ path ++ strOf ": " ++ e])) := by
  refine ⟨?_, ?_, ?_⟩
  · intro C fs entry fuel hwf e
    exact collectGo_no_error C fs entry hwf fuel [entry] [] [] [] e
  · intro C fs entry fuel raw em he hf hx hr hsp
    unfold Core.collect_documents
    rw [Core.collectGo]
    simp [lookupAL, Core.loadOne, he, hf, hx, hr, hsp]
  · intro C fs entry fuel path e rest visited order warns hv he hf hx hr
    rw [Core.collectGo]
    simp [hv, Core.loadOne, he, hf, hx, hr]

/-- C3 witness: the gate theorem applied to the fixtures — the
well-formed nested fixture never errors, the unterminated `u.md` aborts
with the split-failure error, and the unreadable `e.md` is skipped with a
"Failed to read" warning while traversal continues to completion. -/
theorem c3_fatal_witness :
    Core.collect_documents Fix.fixCollab Fix.fixFs (strOf "index.md") 9 ≠
      some (.error (strOf "Unterminated frontmatter block"))
    ∧ Core.collect_documents Fix.badCollab Fix.untermFs (strOf "u.md") 3 =
        some (.error (strOf "Split frontmatter failed: " ++ strOf "u.md"))
    ∧ Core.collectGo Fix.badCollab Fix.erroFs (strOf "e.md") 1 [strOf "e.md"] [] [] [] =
        Core.collectGo Fix.badCollab Fix.erroFs (strOf "e.md") 0 [] [] []
          ([] ++ [strOf "Failed to read " ++ strOf "e.md" ++ strOf ": " ++ strOf "io error"]) := by
  refine ⟨?_, ?_, ?_⟩
  · exact c3_fatal_only_bad_header.1 Fix.fixCollab Fix.fixFs (strOf "index.md") 9
      fix_wellFormed _
  · exact c3_fatal_only_bad_header.2.1 Fix.badCollab Fix.untermFs (strOf "u.md") 2
      (strOf "---\ntitle: X") (strOf "Unterminated frontmatter block")
      rfl rfl rfl rfl rfl
  · exact c3_fatal_only_bad_header.2.2 Fix.badCollab Fix.erroFs (strOf "e.md") 0
      (strOf "e.md") (strOf "io error") [] [] [] [] rfl rfl rfl rfl rfl

/-- C3 counterexample: a file whose header block *is* terminated but
whose YAML is malformed (`foo: [`) aborts the build with the YAML error —
so an unterminated header block is not the only fatal read-time
condition. -/
theorem c3_yaml_error_also_fatal :
    Core.collect_documents Fix.badCollab Fix.badFs (strOf "e.md") 3 =
      some (.error (strOf "Invalid YAML frontmatter"))
    ∧ Core.split_frontmatter (strOf "---\nfoo: [\n---\nbody") =
        .ok ⟨some (strOf "foo: ["), strOf "body"⟩ := ⟨rfl, rfl⟩


theorem set_self {α : Type} (l : List α) (n : Nat) (a : α) (h : l.get? n = some a) :
    l.set n a = l := by
  apply List.ext_get?
  intro i
  by_cases hi : i = n
  · subst hi
    rw [List.get?_set_eq_of_lt]
    · simpa using h.symm
    · exact (List.get?_eq_some.mp h).1
  · rw [List.get?_set_ne _ _ (Ne.symm hi)]

theorem modifyIdx_map {α : Type} (g : Core.Doc → α) (docs : List Core.Doc) (j : Nat)
    (f : Core.Doc → Core.Doc) (h : ∀ d, g (f d) = g d) :
    (Core.modifyIdx docs j f).map g = docs.map g := by
  unfold Core.modifyIdx
  cases hj : docs.get? j with
  | none => rfl
  | some d =>
    rw [List.map_set, h d]
    apply set_self
    rw [List.get?_map, hj]
    rfl

theorem foldl_map_eq {α β : Type} (g : Core.Doc → α)
    (step : List Core.Doc → β → List Core.Doc)
    (h : ∀ docs x, (step docs x).map g = docs.map g) :
    ∀ (l : List β) (docs : List Core.Doc), (l.foldl step docs).map g = docs.map g := by
  intro l
  induction l with
  | nil => intro docs; rfl
  | cons x xs ih =>
    intro docs
    rw [List.foldl_cons, ih, h]

theorem linkEdgesAt_proj (fs : Core.FileProvider) (docs : List Core.Doc) (i : Nat) :
    (Core.linkEdgesAt fs docs i).map (fun d => (d.abs_path, d.visibility)) =
      docs.map (fun d => (d.abs_path, d.visibility)) := by
  unfold Core.linkEdgesAt
  split
  · rfl
  · split
    · rfl
    · apply foldl_map_eq
      intro ds x
      split
      · split
        · dsimp only
          split
          · split
            · refine (modifyIdx_map _ _ _ _ ?_).trans (modifyIdx_map _ _ _ _ ?_) <;>
                (intro d; rfl)
            · refine modifyIdx_map _ _ _ _ ?_
              intro d; rfl
          · split
            · refine modifyIdx_map _ _ _ _ ?_
              intro d; rfl
            · rfl
        · rfl
      · rfl



theorem childAliasesAt_proj (fs : Core.FileProvider) (docs : List Core.Doc) (i : Nat) :
    (Core.childAliasesAt fs docs i).map (fun d => (d.abs_path, d.visibility)) =
      docs.map (fun d => (d.abs_path, d.visibility)) := by
  unfold Core.childAliasesAt
  split
  · rfl
  · split
    · rfl
    · apply foldl_map_eq
      intro ds x
      split
      · split
        · rfl
        · split
          · split
            · dsimp only
              refine modifyIdx_map _ _ _ _ ?_
              intro d; rfl
            · rfl
          · rfl
      · rfl

theorem parentAliasesAt_proj (fs : Core.FileProvider) (docs : List Core.Doc) (i : Nat) :
    (Core.parentAliasesAt fs docs i).map (fun d => (d.abs_path, d.visibility)) =
      docs.map (fun d => (d.abs_path, d.visibility)) := by
  unfold Core.parentAliasesAt
  split
  · rfl
  · split
    · rfl
    · apply foldl_map_eq
      intro ds x
      split
      · split
        · rfl
        · split
          · split
            · dsimp only
              refine modifyIdx_map _ _ _ _ ?_
              intro d; rfl
            · rfl
          · rfl
      · rfl

theorem link_graph_proj (fs : Core.FileProvider) (docs : List Core.Doc) :
    (Core.link_graph fs docs).map (fun d => (d.abs_path, d.visibility)) =
      docs.map (fun d => (d.abs_path, d.visibility)) := by
  unfold Core.link_graph
  rw [foldl_map_eq _ _ (fun ds j => parentAliasesAt_proj fs ds j),
      foldl_map_eq _ _ (fun ds j => childAliasesAt_proj fs ds j),
      foldl_map_eq _ _ (fun ds j => linkEdgesAt_proj fs ds j)]

theorem rewriteDoc_proj (bb : List (Str × (Str × Bool))) (mp fl : Bool) (d : Core.Doc) :
    ((Core.rewriteDoc bb mp fl d).abs_path, (Core.rewriteDoc bb mp fl d).visibility) =
      (d.abs_path, d.visibility) := by
  unfold Core.rewriteDoc
  split <;> rfl

theorem rewrite_links_proj (docs : List Core.Doc) (opts : Core.CoreBuildOptions) :
    (Core.rewrite_internal_links docs opts).map (fun d => (d.abs_path, d.visibility)) =
      docs.map (fun d => (d.abs_path, d.visibility)) := by
  unfold Core.rewrite_internal_links
  split
  · rfl
  · rw [List.map_map]
    apply List.map_congr_left
    intro d _
    exact rewriteDoc_proj _ _ _ d

theorem attachDoc_proj (os : Core.OsFs) (mp fl : Bool) (st : Core.AttachState)
    (d : Core.Doc) :
    ((Core.attachDoc os mp fl st d).2.abs_path,
      (Core.attachDoc os mp fl st d).2.visibility) = (d.abs_path, d.visibility) := by
  unfold Core.attachDoc
  split <;> rfl

theorem attachments_pass_proj_aux (os : Core.OsFs) (mp fl : Bool) :
    ∀ (docs : List Core.Doc) (st : Core.AttachState) (acc : List Core.Doc),
      ((docs.foldl
        (fun (a : Core.AttachState × List Core.Doc) d =>
          let r := Core.attachDoc os mp fl a.1 d
          (r.1, a.2 ++ [r.2]))
        (st, acc)).2).map (fun d => (d.abs_path, d.visibility)) =
      acc.map (fun d => (d.abs_path, d.visibility)) ++
        docs.map (fun d => (d.abs_path, d.visibility)) := by
  intro docs
  induction docs with
  | nil => intro st acc; simp
  | cons d ds ih =>
    intro st acc
    rw [List.foldl_cons]
    rw [ih]
    simp only [List.map_append, List.map_cons, List.map_nil, List.append_assoc]
    congr 1
    simp [attachDoc_proj os mp fl st d]

theorem attachments_pass_proj (os : Core.OsFs) (mp fl : Bool) (docs : List Core.Doc) :
    ((Core.attachments_pass os mp fl docs).1).map (fun d => (d.abs_path, d.visibility)) =
      docs.map (fun d => (d.abs_path, d.visibility)) := by
  unfold Core.attachments_pass
  have h := attachments_pass_proj_aux os mp fl docs ⟨[], []⟩ []
  simpa using h



theorem build_site_keeps_entry :
    ∀ (C : Core.Collab) (fs : Core.FileProvider) (os : Core.OsFs) (entry : Str)
      (opts : Core.CoreBuildOptions) (fuel : Nat) (docs0 : List Core.Doc) (w : List Str),
      opts.include_nonpublic = false →
      Core.collect_documents C fs entry fuel = some (.ok (docs0, w)) →
      (∃ d ∈ docs0, d.abs_path = entry) →
      ∃ arts, Core.build_site C fs os entry opts fuel = some (.ok arts) ∧
        arts.pages.map (fun p => p.source_path) =
          ((Core.link_graph fs docs0).filter
            (fun d => d.is_public || d.abs_path = entry)).map (fun d => d.abs_path) ∧
        ∃ p ∈ arts.pages, p.source_path = entry := by
  intro C fs os entry opts fuel docs0 w hinc hcol hentry
  obtain ⟨d0, hd0m, hd0a⟩ := hentry
  have habs : (Core.link_graph fs docs0).map (fun d => d.abs_path) =
      docs0.map (fun d => d.abs_path) := by
    have h := congrArg (List.map Prod.fst) (link_graph_proj fs docs0)
    simpa [List.map_map, Function.comp] using h
  have hmem1 : entry ∈ (Core.link_graph fs docs0).map (fun d => d.abs_path) := by
    rw [habs]
    exact List.mem_map.mpr ⟨d0, hd0m, hd0a⟩
  obtain ⟨d1, hd1m, hd1a⟩ := List.mem_map.mp hmem1
  have hmemf : d1 ∈ (Core.link_graph fs docs0).filter
      (fun d => d.is_public || d.abs_path = entry) := by
    apply List.mem_filter.mpr
    refine ⟨hd1m, ?_⟩
    simp [hd1a]
  -- evaluate build_site
  unfold Core.build_site
  rw [hcol]
  dsimp only
  have hfind : ¬ (((Core.link_graph fs docs0).find?
      (fun d => decide (d.abs_path = entry))).isNone = true) := by
    rcases hf : (Core.link_graph fs docs0).find? (fun d => decide (d.abs_path = entry)) with _ | dx
    · exfalso
      have := List.find?_eq_none.mp hf d1 hd1m
      simp [hd1a] at this
    · simp
      exact ⟨d1, hd1m, hd1a⟩
  rw [if_neg hfind]
  have hincp : ¬ opts.include_nonpublic = true := by simp [hinc]
  rw [if_pos hincp]
  have hne : ¬ (((Core.link_graph fs docs0).filter
      (fun d => d.is_public || d.abs_path = entry)).isEmpty = true) := by
    simp only [List.isEmpty_iff]
    exact List.ne_nil_of_mem hmemf
  rw [if_neg hne]
  have hpages : ∀ (mp : Bool) (docsR : List Core.Doc),
      ((Core.attachments_pass os mp opts.flat docsR).1.map (Core.pageOf mp)).map
        (fun p => p.source_path) = docsR.map (fun d => d.abs_path) := by
    intro mp docsR
    rw [List.map_map]
    have h1 : (Core.attachments_pass os mp opts.flat docsR).1.map
        ((fun (p : Core.PageOutput) => p.source_path) ∘ Core.pageOf mp) =
        (Core.attachments_pass os mp opts.flat docsR).1.map (fun d => d.abs_path) := rfl
    rw [h1]
    have h := congrArg (List.map Prod.fst) (attachments_pass_proj os mp opts.flat docsR)
    simpa [List.map_map, Function.comp] using h
  have hrwabs : ∀ (docsR : List Core.Doc),
      (Core.rewrite_internal_links docsR opts).map (fun d => d.abs_path) =
        docsR.map (fun d => d.abs_path) := by
    intro docsR
    have h := congrArg (List.map Prod.fst) (rewrite_links_proj docsR opts)
    simpa [List.map_map, Function.comp] using h
  have hdocsR : (if opts.rewrite_links then
        Core.rewrite_internal_links ((Core.link_graph fs docs0).filter
          (fun d => d.is_public || d.abs_path = entry)) opts
      else (Core.link_graph fs docs0).filter
          (fun d => d.is_public || d.abs_path = entry)).map (fun d => d.abs_path) =
      ((Core.link_graph fs docs0).filter
        (fun d => d.is_public || d.abs_path = entry)).map (fun d => d.abs_path) := by
    cases hrw : opts.rewrite_links with
    | false => simp
    | true => simp [hrwabs]
  refine ⟨_, rfl, ?_, ?_⟩
  · rw [hpages]
    exact hdocsR
  · have hmm : entry ∈ ((Core.link_graph fs docs0).filter
        (fun d => d.is_public || d.abs_path = entry)).map (fun d => d.abs_path) :=
      List.mem_map.mpr ⟨d1, hmemf, hd1a⟩
    rw [← hdocsR, ← hpages] at hmm
    obtain ⟨p, hpm, hpe⟩ := List.mem_map.mp hmm
    exact ⟨p, hpm, hpe⟩


/-- C10: with `include_nonpublic = false`, visibility filtering retains
exactly the documents whose visibility list contains `public` plus the
entry document itself; whenever the entry document was loaded, the build
succeeds and the entry appears among the output pages (even when its
visibility does not include `public`).  The CLI's `emit_site` applies the
same filter. -/
theorem c10_visibility_filter :
    (∀ (C : Core.Collab) (fs : Core.FileProvider) (os : Core.OsFs) (entry : Str)
      (opts : Core.CoreBuildOptions) (fuel : Nat) (docs0 : List Core.Doc) (w : List Str),
      opts.include_nonpublic = false →
      Core.collect_documents C fs entry fuel = some (.ok (docs0, w)) →
      (∃ d ∈ docs0, d.abs_path = entry) →
      ∃ arts, Core.build_site C fs os entry opts fuel = some (.ok arts) ∧
        arts.pages.map (fun p => p.source_path) =
          ((Core.link_graph fs docs0).filter
            (fun d => d.is_public || d.abs_path = entry)).map (fun d => d.abs_path) ∧
        ∃ p ∈ arts.pages, p.source_path = entry)
    ∧ (∀ (entry : Str) (docs : List Cli.Doc) (d : Cli.Doc),
        d ∈ Cli.emitFilter false entry docs ↔
          (d ∈ docs ∧ (d.is_public = true ∨ d.abs_path = entry))) := by
  constructor
  · exact build_site_keeps_entry
  · intro entry docs d
    unfold Cli.emitFilter
    simp [List.mem_filter]

/-- C10 witness: in the nested fixture no document (including the entry)
is public; the build keeps exactly the entry page `index.md`, which is
emitted even though its visibility does not include `public`. -/
theorem c10_visibility_witness :
    (∃ arts, Core.build_site Fix.fixCollab Fix.fixFs ⟨[], []⟩ (strOf "index.md")
        { include_nonpublic := false } 9 = some (.ok arts) ∧
      ∃ p ∈ arts.pages, p.source_path = strOf "index.md")
    ∧ ((match Core.build_site Fix.fixCollab Fix.fixFs ⟨[], []⟩ (strOf "index.md")
          { include_nonpublic := false } 9 with
        | some (.ok arts) => some (arts.pages.map (fun p => p.source_path))
        | _ => none) = some [strOf "index.md"])
    ∧ ((match Core.collect_documents Fix.fixCollab Fix.fixFs (strOf "index.md") 9 with
        | some (.ok (docs, _)) => some (docs.map (fun d => (d.abs_path, d.visibility)))
        | _ => none) =
       some [(strOf "index.md", []), (strOf "alpha.md", []), (strOf "beta.md", [])]) := by
  refine ⟨?_, by rfl, by rfl⟩
  obtain ⟨arts, h1, _, h3⟩ := c10_visibility_filter.1 Fix.fixCollab Fix.fixFs ⟨[], []⟩
    (strOf "index.md") { include_nonpublic := false } 9 _ _ rfl rfl
    ⟨_, List.mem_cons_self _ _, rfl⟩
  exact ⟨arts, h1, h3⟩


/-- C9 (amended): the core's required-field presence check emits exactly
one warning per missing field among title, author, created, updated,
visibility, format, reachable — in that order, each warning naming the
field and the document path — where `reachable` counts as missing iff it
is absent, null, a blank string, or an empty sequence; a successfully
read, split, parsed and rendered document is always loaded with exactly
those warnings (never fatal).  The CLI variant (`src/build/mod.rs`)
instead checks only the six fields without `reachable`, and its warning
text carries no document identifier. -/
theorem c9_required_fields :
    (∀ (fm : Core.FrontmatterRaw) (path : Str),
      Core.check_required fm path =
        ((Core.requiredTable fm).filter (fun p => p.2)).map
          (fun p => Core.missingMsg p.1 path))
    ∧ (∀ r, Core.reachableMissing r = true ↔
        (r = none ∨ r = some Yaml.null ∨
         (∃ s, r = some (Yaml.str s) ∧ trimS s = []) ∨
         r = some (Yaml.seq [])))
    ∧ (∀ (C : Core.Collab) (fs : Core.FileProvider) (path raw : Str)
        (sp : Core.SplitFrontmatter) (fv : Yaml × Core.FrontmatterRaw) (h : Core.Html),
        fs.exists' path = true → fs.is_file path = true →
        fs.extension_lowercase path = some (strOf "md") →
        fs.read_to_string path = .ok raw →
        Core.split_frontmatter raw = .ok sp →
        Core.parse_frontmatter C sp.frontmatter_yaml = .ok fv →
        C.renderMd sp.body_md = .ok h →
        (Core.loadOne C fs path).doc?.map Core.Doc.warnings =
          some (Core.check_required fv.2 path))
    ∧ (∀ (fm : Cli.FrontmatterRaw),
        Cli.check_required fm =
          ((Cli.requiredSixTable fm).filter (fun p => p.2)).map
            (fun p => strOf "Missing required field: " ++ p.1)) := by
  refine ⟨?_, ?_, ?_, ?_⟩
  · intro fm path
    rcases fm with ⟨t, a, c, u, v, fo, _, _, _, _, _, _, _, re⟩
    cases t <;> cases a <;> cases c <;> cases u <;> cases v <;> cases fo <;>
      cases hre : Core.reachableMissing re <;>
      simp [Core.check_required, Core.requiredTable, hre]
  · intro r
    rcases r with _ | y
    · simp [Core.reachableMissing]
    · cases y <;> simp [Core.reachableMissing, List.isEmpty_iff]
  · intro C fs path raw sp fv h he hf hx hr hs hp hm
    rcases fv with ⟨fv1, fv2⟩
    simp [Core.loadOne, he, hf, hx, hr, hs, hp, hm, Core.LoadOutcome.doc?]
  · intro fm
    rcases fm with ⟨t, a, c, u, v, fo, _, _, _, _, _, _, _, _, _, _, _, _⟩
    cases t <;> cases a <;> cases c <;> cases u <;> cases v <;> cases fo <;>
      simp [Cli.check_required, Cli.requiredSixTable] <;> decide

/-- C9 witness: the required-field check and loader of the fixtures.  The
fully-annotated `solo.md` loads with exactly its `check_required`
warnings, and a blank-string `reachable` counts as missing. -/
theorem c9_required_fields_witness :
    ((Core.loadOne Fix.fixCollab Fix.soloFs (strOf "solo.md")).doc?.map
        Core.Doc.warnings = some (Core.check_required Fix.fmS (strOf "solo.md")))
    ∧ Core.reachableMissing (some (Yaml.str (strOf " "))) = true := by
  refine ⟨?_, ?_⟩
  · exact c9_required_fields.2.2.1 Fix.fixCollab Fix.soloFs (strOf "solo.md")
      (strOf "---\n" ++ Fix.hdrS ++ strOf "\n---\nBody")
      ⟨some Fix.hdrS, strOf "Body"⟩ (Fix.ymlS, Fix.fmS)
      [Core.HtmlItem.text (strOf "Body")] rfl rfl rfl rfl rfl rfl rfl
  · exact (c9_required_fields.2.1 (some (Yaml.str (strOf " ")))).2
      (Or.inr (Or.inr (Or.inl ⟨strOf " ", rfl, rfl⟩)))

/-- C9 counterexample: a CLI-loaded document with all six CLI-checked
fields but (necessarily) no `reachable` key gets *no* warning from the
CLI's `check_required`, while the core's check — which the claim
describes — warns about the missing `reachable`; the CLI's warning text
for a missing field also carries no document identifier. -/
theorem c9_reachable_not_checked_in_cli :
    ((Cli.loadOne Fix.cliCollabFix Fix.cliReadFix (strOf "six.md")).doc?.map
        (fun d => d.warnings) = some ([] : List Str))
    ∧ Core.check_required Fix.coreFmSix (strOf "six.md") =
        [Core.missingMsg (strOf "reachable") (strOf "six.md")]
    ∧ Cli.check_required { Fix.cliFmSix with title := none } =
        [strOf "Missing required field: title"]
    ∧ Core.containsSub (strOf "Missing required field: title") (strOf "six.md") = false := by
  exact ⟨rfl, rfl, rfl, by decide⟩

open Core

theorem strLe_total : ∀ (a b : Str), strLe a b = true ∨ strLe b a = true := by
  intro a
  induction a with
  | nil => intro b; left; rfl
  | cons x xs ih =>
    intro b
    cases b with
    | nil => right; rfl
    | cons y ys =>
      by_cases h1 : x.toNat < y.toNat
      · left; simp [strLe, h1]
      · by_cases h2 : y.toNat < x.toNat
        · right; simp [strLe, h2]
        · rcases ih ys with h | h
          · left; simp [strLe, h1, h2, h]
          · right; simp [strLe, h1, h2, h]

theorem strLe_trans : ∀ (a b c : Str), strLe a b = true → strLe b c = true →
    strLe a c = true := by
  intro a
  induction a with
  | nil => intro b c _ _; rfl
  | cons x xs ih =>
    intro b c h1 h2
    cases b with
    | nil => simp [strLe] at h1
    | cons y ys =>
      cases c with
      | nil => simp [strLe] at h2
      | cons z zs =>
        simp only [strLe] at h1 h2 ⊢
        rcases Nat.lt_trichotomy x.toNat y.toNat with hxy | hxy | hxy
        · rcases Nat.lt_trichotomy y.toNat z.toNat with hyz | hyz | hyz
          · simp [Nat.lt_trans hxy hyz]
          · simp [show x.toNat < z.toNat by omega]
          · rw [if_neg (by omega), if_pos hyz] at h2
            cases h2
        · rcases Nat.lt_trichotomy y.toNat z.toNat with hyz | hyz | hyz
          · simp [show x.toNat < z.toNat by omega]
          · rw [if_neg (by omega), if_neg (by omega)]
            rw [if_neg (by omega), if_neg (by omega)] at h1
            rw [if_neg (by omega), if_neg (by omega)] at h2
            exact ih ys zs h1 h2
          · rw [if_neg (by omega), if_pos hyz] at h2
            cases h2
        · rw [if_neg (by omega), if_pos hxy] at h1
          cases h1



theorem sortInsert_perm {α : Type} (f : α → Str) (x : α) :
    ∀ l : List α, (sortInsert f x l).Perm (x :: l) := by
  intro l
  induction l with
  | nil => exact List.Perm.refl _
  | cons y ys ih =>
    unfold sortInsert
    split
    · exact List.Perm.refl _
    · exact (List.Perm.cons y ih).trans (List.Perm.swap x y ys)

theorem sortByKey_perm {α : Type} (f : α → Str) :
    ∀ l : List α, (sortByKey f l).Perm l := by
  intro l
  induction l with
  | nil => exact List.Perm.refl _
  | cons x xs ih =>
    unfold sortByKey
    exact (sortInsert_perm f x _).trans (List.Perm.cons x ih)

theorem sortInsert_pairwise {α : Type} (f : α → Str) (x : α) (l : List α)
    (h : l.Pairwise (fun a b => strLe (f a) (f b) = true)) :
    (sortInsert f x l).Pairwise (fun a b => strLe (f a) (f b) = true) := by
  induction l with
  | nil => simp [sortInsert]
  | cons y ys ih =>
    unfold sortInsert
    split
    · rename_i hc
      constructor
      · intro z hz
        rcases List.mem_cons.mp hz with hz | hz
        · subst hz; exact hc
        · exact strLe_trans _ _ _ hc (List.rel_of_pairwise_cons h hz)
      · exact h
    · rename_i hc
      constructor
      · intro z hz
        have hz' := (sortInsert_perm f x ys).mem_iff.mp hz
        rcases List.mem_cons.mp hz' with hz' | hz'
        · subst hz'
          rcases strLe_total (f z) (f y) with ht | ht
          · exact absurd ht hc
          · exact ht
        · exact List.rel_of_pairwise_cons h hz'
      · exact ih h.of_cons

theorem sortByKey_pairwise {α : Type} (f : α → Str) :
    ∀ l : List α, (sortByKey f l).Pairwise (fun a b => strLe (f a) (f b) = true) := by
  intro l
  induction l with
  | nil => simp [sortByKey]
  | cons x xs ih =>
    unfold sortByKey
    exact sortInsert_pairwise f x _ ih

theorem lookupAL_hmInsert {α : Type} (m : List (Str × α)) (k k' : Str) (v : α) :
    lookupAL (hmInsert m k v) k' = if k = k' then some v else lookupAL m k' := by
  induction m with
  | nil => simp [hmInsert, lookupAL]
  | cons p rest ih =>
    rcases p with ⟨k0, v0⟩
    by_cases h0 : k0 = k
    · subst h0
      by_cases h1 : k0 = k'
      · subst h1
        simp [hmInsert, lookupAL]
      · simp [hmInsert, lookupAL, h1]
    · simp only [hmInsert, if_neg h0]
      by_cases h1 : k0 = k'
      · subst h1
        have hkne : ¬ k = k0 := fun h => h0 h.symm
        simp [lookupAL, hkne]
      · simp [lookupAL, h1, ih]

theorem lookupAL_none_keys {α : Type} (m : List (Str × α)) (k : Str)
    (h : lookupAL m k = none) : k ∉ m.map (fun p => p.1) := by
  induction m with
  | nil => simp
  | cons p rest ih =>
    rcases p with ⟨k0, v0⟩
    by_cases h0 : k0 = k
    · subst h0; simp [lookupAL] at h
    · simp only [lookupAL, if_neg h0] at h
      simp only [List.map_cons, List.mem_cons]
      rintro (h1 | h1)
      · exact h0 h1.symm
      · exact ih h h1

theorem hmInsert_keys_of_absent {α : Type} (m : List (Str × α)) (k : Str) (v : α)
    (h : lookupAL m k = none) :
    (hmInsert m k v).map (fun p => p.1) = m.map (fun p => p.1) ++ [k] := by
  induction m with
  | nil => simp [hmInsert]
  | cons p rest ih =>
    rcases p with ⟨k0, v0⟩
    by_cases h0 : k0 = k
    · subst h0; simp [lookupAL] at h
    · simp only [lookupAL, if_neg h0] at h
      simp [hmInsert, if_neg h0, ih h]



theorem foldlPreserve {α β : Type} (P : α → Prop) (f : α → β → α)
    (h : ∀ a b, P a → P (f a b)) : ∀ (l : List β) (a : α), P a → P (l.foldl f a) := by
  intro l
  induction l with
  | nil => intro a ha; exact ha
  | cons b bs ih => intro a ha; exact ih (f a b) (h a b ha)

theorem attachOneValue_st (os : OsFs) (mp fl ir : Bool) (pd : Str) (st : AttachState)
    (val : Str) :
    (attachOneValue os mp fl ir pd st val).1 = st ∨
    ∃ abs rel used, lookupAL st.source_to_target abs = none ∧
      (attachOneValue os mp fl ir pd st val).1 =
        ⟨hmInsert st.source_to_target abs rel, used⟩ := by
  unfold attachOneValue
  cases hc : attachCandidate val with
  | none => exact Or.inl rfl
  | some cv =>
    dsimp only
    split
    · exact Or.inl rfl
    · split
      · exact Or.inl rfl
      · split
        · exact Or.inl rfl
        · rename_i hlook
          exact Or.inr ⟨_, _, _, hlook, rfl⟩



theorem attachOneValue_keys (os : OsFs) (mp fl ir : Bool) (pd : Str) (st : AttachState)
    (val : Str) (h : (st.source_to_target.map (fun p => p.1)).Nodup) :
    (((attachOneValue os mp fl ir pd st val).1).source_to_target.map (fun p => p.1)).Nodup := by
  rcases attachOneValue_st os mp fl ir pd st val with h1 | ⟨abs, rel, used, hlook, h1⟩
  · rw [h1]; exact h
  · rw [h1]
    simp only [hmInsert_keys_of_absent st.source_to_target abs rel hlook]
    rw [List.nodup_append]
    exact ⟨h, List.nodup_singleton _, by
      simp only [List.disjoint_singleton]
      exact lookupAL_none_keys st.source_to_target abs hlook⟩

theorem attachOneItem_keys (os : OsFs) (mp fl ir : Bool) (pd : Str) (st : AttachState)
    (it : HtmlItem) (h : (st.source_to_target.map (fun p => p.1)).Nodup) :
    (((attachOneItem os mp fl ir pd st it).1).source_to_target.map (fun p => p.1)).Nodup := by
  cases it with
  | text s => exact h
  | srcAttr v =>
    have hv := attachOneValue_keys os mp fl ir pd st v h
    rcases hov : attachOneValue os mp fl ir pd st v with ⟨st1, w, r⟩
    rw [hov] at hv
    cases r <;> simp only [attachOneItem, hov] <;> exact hv
  | hrefAttr v =>
    have hv := attachOneValue_keys os mp fl ir pd st v h
    rcases hov : attachOneValue os mp fl ir pd st v with ⟨st1, w, r⟩
    rw [hov] at hv
    cases r <;> simp only [attachOneItem, hov] <;> exact hv

theorem attachDoc_keys (os : OsFs) (mp fl : Bool) (st : AttachState) (d : Doc)
    (h : (st.source_to_target.map (fun p => p.1)).Nodup) :
    (((attachDoc os mp fl st d).1).source_to_target.map (fun p => p.1)).Nodup := by
  unfold attachDoc
  split
  · exact h
  · dsimp only
    have := foldlPreserve
      (fun (acc : AttachState × List Str × Html) =>
        ((acc.1.source_to_target.map (fun p => p.1)).Nodup))
      (fun acc item =>
        let r := attachOneItem os mp fl d.is_root_index (pathParent d.abs_path) acc.1 item
        (r.1, acc.2.1 ++ r.2.1.toList, acc.2.2 ++ [r.2.2]))
      (fun acc item hacc => attachOneItem_keys os mp fl _ _ acc.1 item hacc)
      d.html (st, [], []) h
    exact this

theorem attachments_pass_keys (os : OsFs) (mp fl : Bool) (docs : List Doc) :
    ((docs.foldl
      (fun (acc : AttachState × List Doc) d =>
        let r := attachDoc os mp fl acc.1 d
        (r.1, acc.2 ++ [r.2]))
      (⟨⟨[], []⟩, []⟩ : AttachState × List Doc)).1.source_to_target.map
        (fun p => p.1)).Nodup := by
  have := foldlPreserve
    (fun (acc : AttachState × List Doc) =>
      ((acc.1.source_to_target.map (fun p => p.1)).Nodup))
    (fun acc d =>
      let r := attachDoc os mp fl acc.1 d
      (r.1, acc.2 ++ [r.2]))
    (fun acc d hacc => attachDoc_keys os mp fl acc.1 d hacc)
    docs ⟨⟨[], []⟩, []⟩ (by simp)
  exact this



/-- C4: the attachment copy plan of `build_site` is sorted by target
(`plan.sort_by(|a, b| a.target.cmp(&b.target))`), has pairwise-distinct
source keys (it is the list form of the `source_to_target` map), and any
attribute value whose resolved path string is already a key of the map is
rewritten to the recorded target, with a `../` prefix on non-root pages of
the nested multi-page layout (claim C4, as amended: deduplication is by
the syntactic resolved path string). -/
theorem c4_attachment_plan (os : OsFs) (mp fl : Bool) (docs : List Doc) :
    ((attachments_pass os mp fl docs).2.Pairwise
        (fun a b => strLe a.target b.target = true)) ∧
    ((attachments_pass os mp fl docs).2.map (fun e => e.source)).Nodup ∧
    (∀ (ir : Bool) (pd : Str) (st : AttachState) (val cv t : Str),
      attachCandidate val = some cv →
      os.existsP (pathJoin pd (decodeP20 cv)) = true →
      os.isDirP (pathJoin pd (decodeP20 cv)) = false →
      lookupAL st.source_to_target (pathJoin pd (decodeP20 cv)) = some t →
      attachOneValue os mp fl ir pd st val =
        (st, none, some (encodeSpaces (if mp && ¬ fl && ¬ ir then strOf "../" ++ t
          else t)))) := by
  refine ⟨?_, ?_, ?_⟩
  · unfold attachments_pass
    dsimp only
    exact sortByKey_pairwise _ _
  · unfold attachments_pass
    dsimp only
    have hperm := (sortByKey_perm (fun e : AttachmentPlanEntry => e.target)
      ((docs.foldl
        (fun (acc : AttachState × List Doc) d =>
          let r := attachDoc os mp fl acc.1 d
          (r.1, acc.2 ++ [r.2]))
        (⟨⟨[], []⟩, []⟩ : AttachState × List Doc)).1.source_to_target.map
          (fun p => (⟨p.1, p.2⟩ : AttachmentPlanEntry)))).map
      (fun e : AttachmentPlanEntry => e.source)
    rw [hperm.nodup_iff, List.map_map]
    exact attachments_pass_keys os mp fl docs
  · intro ir pd st val cv t hcand hex hdir hlook
    unfold attachOneValue
    rw [hcand]
    dsimp only
    rw [hex, hdir]
    simp [hlook]



/-- C4 counterexample: `img.png` and `./img.png` in `a/doc.md` resolve to
the same physical file `a/img.png` (the OS normalizes `.` segments), yet
the pass keys its map by the unnormalized joined strings `a/img.png` and
`a/./img.png`, so the plan has two entries, the second gets the collision
suffix `-1`, and the two rewritten references point at different targets. -/
theorem c4_dedup_by_path_string :
    Core.normalizePath (strOf "a/./img.png") = Core.normalizePath (strOf "a/img.png") ∧
    (Core.attachments_pass Fix.osA false false [Fix.dAtt]).2 =
      [⟨strOf "a/./img.png", strOf "assets/img-1.png"⟩,
       ⟨strOf "a/img.png", strOf "assets/img.png"⟩] ∧
    (Core.attachments_pass Fix.osA false false [Fix.dAtt]).1.map (fun d => d.html) =
      [[.srcAttr (strOf "assets/img.png"), .srcAttr (strOf "assets/img-1.png")]] := by
  refine ⟨rfl, rfl, rfl⟩

/-- C4 witness: in the nested fixture both the root and the child
reference `img.png` by the same string; the plan has a single entry and
the rewritten references share one target, the child's with `../`. -/
theorem c4_attachment_plan_witness :
    (Core.attachments_pass Fix.osR true false [Fix.dAttRoot, Fix.dAttChild]).2 =
      [⟨strOf "r/img.png", strOf "assets/img.png"⟩] ∧
    (Core.attachments_pass Fix.osR true false [Fix.dAttRoot, Fix.dAttChild]).1.map
        (fun d => d.html) =
      [[.srcAttr (strOf "assets/img.png")], [.srcAttr (strOf "../assets/img.png")]] ∧
    Core.attachOneValue Fix.osR true false false (strOf "r")
        ⟨[(strOf "r/img.png", strOf "assets/img.png")], [strOf "img.png"]⟩
        (strOf "img.png") =
      (⟨[(strOf "r/img.png", strOf "assets/img.png")], [strOf "img.png"]⟩, none,
       some (strOf "../assets/img.png")) := by
  refine ⟨rfl, rfl, ?_⟩
  have h := (c4_attachment_plan Fix.osR true false [Fix.dAttRoot, Fix.dAttChild]).2.2
    false (strOf "r")
    ⟨[(strOf "r/img.png", strOf "assets/img.png")], [strOf "img.png"]⟩
    (strOf "img.png") (strOf "img.png") (strOf "assets/img.png") rfl rfl rfl rfl
  simpa using h



theorem lookupAL_foldl_mem {α : Type} :
    ∀ (l : List (Str × α)) (m : List (Str × α)) (k : Str) (v : α),
      lookupAL (l.foldl (fun m p => hmInsert m p.1 p.2) m) k = some v →
      (k, v) ∈ l ∨ lookupAL m k = some v := by
  intro l
  induction l with
  | nil => intro m k v h; exact Or.inr h
  | cons p ps ih =>
    intro m k v h
    rcases ih (hmInsert m p.1 p.2) k v h with h1 | h1
    · exact Or.inl (List.mem_cons_of_mem p h1)
    · rw [lookupAL_hmInsert] at h1
      by_cases hk : p.1 = k
      · rw [if_pos hk] at h1
        injection h1 with hv
        rcases p with ⟨p1, p2⟩
        left
        have hk' : p1 = k := hk
        have hv' : p2 = v := hv
        subst hk'
        subst hv'
        exact List.mem_cons_self _ _
      · rw [if_neg hk] at h1
        exact Or.inr h1

theorem lookupAL_hmOfList_mem {α : Type} (l : List (Str × α)) (k : Str) (v : α)
    (h : lookupAL (hmOfList l) k = some v) : (k, v) ∈ l := by
  rcases lookupAL_foldl_mem l [] k v h with h1 | h1
  · exact h1
  · simp [lookupAL] at h1

theorem takeWhile_append_all (p : Char → Bool) :
    ∀ (a b : Str), (∀ c ∈ a, p c = true) → (a ++ b).takeWhile p = a ++ b.takeWhile p := by
  intro a
  induction a with
  | nil => intro b _; rfl
  | cons c cs ih =>
    intro b h
    have hc : p c = true := h c (List.mem_cons_self c cs)
    simp [List.takeWhile_cons, hc, ih b (fun x hx => h x (List.mem_cons_of_mem c hx))]

theorem takeWhile_cons_false (p : Char → Bool) (c : Char) (l : Str) (h : p c = false) :
    (c :: l).takeWhile p = [] := by
  simp [List.takeWhile_cons, h]

theorem suffixOfUrl_shape (v : Str) :
    suffixOfUrl v = [] ∨
    ∃ c rest, suffixOfUrl v = c :: rest ∧ (c = '?' ∨ c = '#') := by
  induction v with
  | nil => exact Or.inl rfl
  | cons c cs ih =>
    by_cases hc : (c ≠ '?' && c ≠ '#') = true
    · simp only [suffixOfUrl, List.dropWhile_cons, hc]
      simpa [suffixOfUrl] using ih
    · right
      refine ⟨c, cs, ?_, ?_⟩
      · simp only [suffixOfUrl, List.dropWhile_cons]
        rw [if_neg]
        intro hcontra
        exact hc hcontra
      · simp only [Bool.and_eq_true, decide_eq_true_eq] at hc
        rcases not_and_or.mp hc with hc1 | hc1
        · exact Or.inl (not_not.mp hc1)
        · exact Or.inr (not_not.mp hc1)

theorem coreOfUrl_append_suffix (nh v : Str)
    (h : ∀ c ∈ nh, (c ≠ '?' && c ≠ '#') = true) :
    coreOfUrl (nh ++ suffixOfUrl v) = nh := by
  unfold coreOfUrl
  rw [takeWhile_append_all _ _ _ h]
  rcases suffixOfUrl_shape v with hs | ⟨c, rest, hs, hc⟩
  · rw [hs]; simp
  · rw [hs]
    have hpc : ((fun c => c ≠ '?' && c ≠ '#') c : Bool) = false := by
      rcases hc with hc | hc <;> subst hc <;> decide
    rw [takeWhile_cons_false _ _ _ hpc, List.append_nil]

theorem decodeP20_id : ∀ (s : Str), '%' ∉ s → decodeP20 s = s := by
  intro s h
  induction s using decodeP20.induct with
  | case1 rest =>
    exact absurd (List.mem_cons_self _ _) h
  | case2 c rest hne ih =>
    unfold decodeP20
    split
    · rename_i heq
      injection heq with h1 h2
      exact absurd (h1 ▸ List.mem_cons_self _ _) (h1 ▸ h)
    · rename_i c2 rest2 _ heq
      injection heq with h1 h2
      subst h1
      subst h2
      rw [ih (fun hm => h (List.mem_cons_of_mem _ hm))]
    · rename_i heq
      cases heq
  | case3 => rfl


theorem splitChar_ne_nil (sep : Char) : ∀ (s : Str), splitChar sep s ≠ [] := by
  intro s
  induction s with
  | nil => simp [splitChar]
  | cons c cs ih =>
    unfold splitChar
    by_cases hc : c = sep
    · simp [hc]
    · simp only [if_neg hc]
      rcases hps : splitChar sep cs with _ | ⟨p, ps⟩
      · simp
      · simp

theorem splitChar_length_two (sep : Char) :
    ∀ (s : Str), sep ∈ s → 2 ≤ (splitChar sep s).length := by
  intro s
  induction s with
  | nil => intro h; cases h
  | cons c cs ih =>
    intro h
    unfold splitChar
    by_cases hc : c = sep
    · simp only [if_pos hc, List.length_cons]
      have := splitChar_ne_nil sep cs
      have : 1 ≤ (splitChar sep cs).length := by
        rcases hq : splitChar sep cs with _ | ⟨q, qs⟩
        · exact absurd hq (splitChar_ne_nil sep cs)
        · simp
      omega
    · have hmem : sep ∈ cs := by
        rcases List.mem_cons.mp h with h1 | h1
        · exact absurd h1.symm hc
        · exact h1
      have hlen := ih hmem
      simp only [if_neg hc]
      rcases hps : splitChar sep cs with _ | ⟨p, ps⟩
      · exact absurd hps (splitChar_ne_nil sep cs)
      · rw [hps] at hlen
        simpa using hlen

theorem splitChar_noSep (sep : Char) :
    ∀ (s : Str), sep ∉ s → splitChar sep s = [s] := by
  intro s
  induction s with
  | nil => intro _; rfl
  | cons c cs ih =>
    intro h
    have hc : c ≠ sep := fun hc => h (hc ▸ List.mem_cons_self c cs)
    have hcs : sep ∉ cs := fun hm => h (List.mem_cons_of_mem c hm)
    unfold splitChar
    rw [if_neg (fun hx => hc hx), ih hcs]

theorem splitChar_cons_sep (sep : Char) (b : Str) :
    splitChar sep (sep :: b) = [] :: splitChar sep b := by
  simp [splitChar]

theorem splitChar_cons_nosep (sep c : Char) (b : Str) (hc : ¬ c = sep)
    (p : Str) (ps : List Str) (hps : splitChar sep b = p :: ps) :
    splitChar sep (c :: b) = (c :: p) :: ps := by
  simp [splitChar, hc, hps]

theorem splitChar_getLast_append (sep : Char) (b : Str) :
    ∀ (a : Str), (splitChar sep (a ++ sep :: b)).getLast? = (splitChar sep b).getLast? := by
  intro a
  induction a with
  | nil =>
    rw [List.nil_append, splitChar_cons_sep]
    rcases hps : splitChar sep b with _ | ⟨p, ps⟩
    · exact absurd hps (splitChar_ne_nil sep b)
    · exact List.getLast?_cons_cons
  | cons c cs ih =>
    by_cases hc : c = sep
    · rw [List.cons_append, hc, splitChar_cons_sep]
      rcases hps : splitChar sep (cs ++ sep :: b) with _ | ⟨p, ps⟩
      · exact absurd hps (splitChar_ne_nil sep _)
      · rw [List.getLast?_cons_cons, ← hps]
        exact ih
    · rcases hps : splitChar sep (cs ++ sep :: b) with _ | ⟨p, ps⟩
      · exact absurd hps (splitChar_ne_nil sep _)
      · rw [List.cons_append, splitChar_cons_nosep sep c _ hc p ps hps]
        have hlen := splitChar_length_two sep (cs ++ sep :: b) (by simp)
        rw [hps] at hlen
        rcases ps with _ | ⟨q, qs⟩
        · simp at hlen
        · calc ((c :: p) :: q :: qs).getLast? = (q :: qs).getLast? :=
                List.getLast?_cons_cons
            _ = (p :: q :: qs).getLast? := List.getLast?_cons_cons.symm
            _ = (splitChar sep (cs ++ sep :: b)).getLast? := by rw [hps]
            _ = (splitChar sep b).getLast? := ih

theorem lastSlashPart_noSlash (s : Str) (h : '/' ∉ s) : lastSlashPart s = s := by
  unfold lastSlashPart
  rw [splitChar_noSep '/' s h]
  rfl

theorem lastSlashPart_append (a b : Str) (hb : '/' ∉ b) :
    lastSlashPart (a ++ '/' :: b) = b := by
  unfold lastSlashPart
  rw [List.getLastD_eq_getLast?, splitChar_getLast_append, splitChar_noSep '/' b hb]
  rfl

theorem endsWithCI_html_md (s : Str) :
    endsWithCI (s ++ strOf ".html") (strOf ".md") = false := by
  unfold endsWithCI endsWithS asciiLower
  rw [List.map_append]
  simp only [List.length_append, List.length_map]
  have h5 : (strOf ".html").length = 5 := by decide
  have h3 : (strOf ".md").length = 3 := by decide
  rw [h5, h3]
  have hdrop : (s.map asciiLowerChar ++ (strOf ".html").map asciiLowerChar).drop
      ((s.map asciiLowerChar).length + 2) = ((strOf ".html").map asciiLowerChar).drop 2 := by
    rw [List.drop_append]
  rw [List.length_map] at hdrop
  have harith : s.length + 5 - 3 = s.length + 2 := by omega
  rw [harith, hdrop]
  simp
  decide


theorem litChars (lit : Str)
    (h : lit.all (fun c => c ≠ '?' && c ≠ '#' && c ≠ '%') = true) :
    ∀ c ∈ lit, c ≠ '?' ∧ c ≠ '#' ∧ c ≠ '%' := by
  intro c hc
  have hx := List.all_eq_true.mp h c hc
  simp at hx
  exact ⟨hx.1.1, hx.1.2, hx.2⟩

theorem rewriteHrefValue_some (bb : List (Str × (Str × Bool))) (mp fl ir : Bool)
    (v w : Str) (h : Core.rewriteHrefValue bb mp fl ir v = some w) :
    Core.matchesMdHref v = true ∧
    ∃ slug tr, lookupAL bb (decodeP20 (lastSlashPart (coreOfUrl v))) = some (slug, tr) ∧
      w = Core.newHrefFor mp fl ir tr slug ++ suffixOfUrl v := by
  unfold Core.rewriteHrefValue at h
  split at h
  · rename_i hm
    dsimp only at h
    split at h
    · rename_i slug tr hlook
      injection h with hw
      exact ⟨hm, slug, tr, hlook, hw.symm⟩
    · cases h
  · cases h

theorem newHrefFor_chars (mp fl ir tr : Bool) (slug : Str)
    (hs : ∀ c ∈ slug, c ≠ '?' ∧ c ≠ '#' ∧ c ≠ '/' ∧ c ≠ '%') :
    ∀ c ∈ Core.newHrefFor mp fl ir tr slug, c ≠ '?' ∧ c ≠ '#' ∧ c ≠ '%' := by
  unfold Core.newHrefFor
  split_ifs <;> intro c hc
  · exact litChars (strOf "index.html") (by decide) c hc
  · rcases List.mem_append.mp hc with hc | hc
    · rcases List.mem_append.mp hc with hc | hc
      · exact litChars (strOf "pages/") (by decide) c hc
      · exact ⟨(hs c hc).1, (hs c hc).2.1, (hs c hc).2.2.2⟩
    · exact litChars (strOf ".html") (by decide) c hc
  · exact litChars (strOf "../index.html") (by decide) c hc
  · rcases List.mem_append.mp hc with hc | hc
    · exact ⟨(hs c hc).1, (hs c hc).2.1, (hs c hc).2.2.2⟩
    · exact litChars (strOf ".html") (by decide) c hc
  · exact litChars (strOf "index.html") (by decide) c hc
  · rcases List.mem_append.mp hc with hc | hc
    · exact ⟨(hs c hc).1, (hs c hc).2.1, (hs c hc).2.2.2⟩
    · exact litChars (strOf ".html") (by decide) c hc
  · exact litChars (strOf "index.html") (by decide) c hc

theorem newHrefFor_basename (mp fl ir tr : Bool) (slug : Str)
    (hslash : '/' ∉ slug) :
    lastSlashPart (Core.newHrefFor mp fl ir tr slug) = strOf "index.html" ∨
    lastSlashPart (Core.newHrefFor mp fl ir tr slug) = slug ++ strOf ".html" := by
  have hnoidx : '/' ∉ strOf "index.html" := by decide
  have hnosl : '/' ∉ slug ++ strOf ".html" := by
    intro hm
    rcases List.mem_append.mp hm with hm | hm
    · exact hslash hm
    · revert hm; decide
  unfold Core.newHrefFor
  split_ifs
  · exact Or.inl (lastSlashPart_noSlash _ hnoidx)
  · right
    have hshape : strOf "pages/" ++ (slug ++ strOf ".html") =
        strOf "pages" ++ '/' :: (slug ++ strOf ".html") := rfl
    rw [List.append_assoc, hshape, lastSlashPart_append _ _ hnosl]
  · left
    have hshape : strOf "../index.html" = strOf ".." ++ '/' :: strOf "index.html" := rfl
    rw [hshape, lastSlashPart_append _ _ hnoidx]
  · exact Or.inr (lastSlashPart_noSlash _ hnosl)
  · exact Or.inl (lastSlashPart_noSlash _ hnoidx)
  · exact Or.inr (lastSlashPart_noSlash _ hnosl)
  · exact Or.inl (lastSlashPart_noSlash _ hnoidx)


theorem byBasename_lookup (docs : List Core.Doc) (k : Str) (p : Str × Bool)
    (h : lookupAL (Core.byBasename docs) k = some p) :
    ∃ d ∈ docs, k = lastSlashPart d.abs_path ∧ p = (d.id, d.is_root_index) := by
  have hmem := lookupAL_hmOfList_mem _ _ _ h
  rcases List.mem_map.mp hmem with ⟨d, hd, hdeq⟩
  have h1 := congrArg Prod.fst hdeq
  have h2 := congrArg Prod.snd hdeq
  dsimp at h1 h2
  exact ⟨d, hd, h1.symm, h2.symm⟩

theorem rewriteHrefValue_stable (docs : List Core.Doc) (mp fl ir : Bool) (v w : Str)
    (h1 : ∀ d ∈ docs, endsWithCI (lastSlashPart d.abs_path) (strOf ".md") = true)
    (h2 : ∀ d ∈ docs, ∀ c ∈ d.id, c ≠ '?' ∧ c ≠ '#' ∧ c ≠ '/' ∧ c ≠ '%')
    (h : Core.rewriteHrefValue (Core.byBasename docs) mp fl ir v = some w) :
    Core.rewriteHrefValue (Core.byBasename docs) mp fl ir w = none := by
  obtain ⟨hm, slug, tr, hlook, hw⟩ := rewriteHrefValue_some _ _ _ _ _ _ h
  obtain ⟨d, hd, hk, hp⟩ := byBasename_lookup docs _ _ hlook
  have hslugid : slug = d.id := congrArg Prod.fst hp
  have hslug : ∀ c ∈ slug, c ≠ '?' ∧ c ≠ '#' ∧ c ≠ '/' ∧ c ≠ '%' := by
    rw [hslugid]; exact h2 d hd
  have hnh := newHrefFor_chars mp fl ir tr slug hslug
  have hslash : '/' ∉ slug := fun hmem => (hslug '/' hmem).2.2.1 rfl
  have hcore : coreOfUrl w = Core.newHrefFor mp fl ir tr slug := by
    rw [hw]
    exact coreOfUrl_append_suffix _ v (fun c hc => by
      have hcp := hnh c hc
      simp [hcp.1, hcp.2.1])
  have hnone : lookupAL (Core.byBasename docs)
      (decodeP20 (lastSlashPart (coreOfUrl w))) = none := by
    rcases hlb : lookupAL (Core.byBasename docs)
        (decodeP20 (lastSlashPart (coreOfUrl w))) with _ | p
    · rfl
    · exfalso
      obtain ⟨d2, hd2, hk2, _⟩ := byBasename_lookup docs _ _ hlb
      have hends := h1 d2 hd2
      rw [← hk2] at hends
      rw [hcore] at hends
      rcases newHrefFor_basename mp fl ir tr slug hslash with hbn | hbn
      · rw [hbn] at hends
        have hid : decodeP20 (strOf "index.html") = strOf "index" ++ strOf ".html" := by
          decide
        rw [hid, endsWithCI_html_md] at hends
        cases hends
      · rw [hbn] at hends
        have hnop : '%' ∉ slug ++ strOf ".html" := by
          intro hmem
          rcases List.mem_append.mp hmem with hmem | hmem
          · exact (hslug '%' hmem).2.2.2 rfl
          · revert hmem; decide
        rw [decodeP20_id _ hnop, endsWithCI_html_md] at hends
        cases hends
  unfold Core.rewriteHrefValue
  split
  · dsimp only
    rw [hnone]
  · rfl


theorem rewriteItem_stable (docs : List Core.Doc) (mp fl ir : Bool) (it : Core.HtmlItem)
    (h1 : ∀ d ∈ docs, endsWithCI (lastSlashPart d.abs_path) (strOf ".md") = true)
    (h2 : ∀ d ∈ docs, ∀ c ∈ d.id, c ≠ '?' ∧ c ≠ '#' ∧ c ≠ '/' ∧ c ≠ '%') :
    Core.rewriteItem (Core.byBasename docs) mp fl ir
      (Core.rewriteItem (Core.byBasename docs) mp fl ir it) =
    Core.rewriteItem (Core.byBasename docs) mp fl ir it := by
  cases it with
  | text s => rfl
  | srcAttr v => rfl
  | hrefAttr v =>
    rcases hv : Core.rewriteHrefValue (Core.byBasename docs) mp fl ir v with _ | w
    · simp [Core.rewriteItem, hv]
    · have hs := rewriteHrefValue_stable docs mp fl ir v w h1 h2 hv
      simp [Core.rewriteItem, hv, hs]

theorem rewriteDoc_fields (bb : List (Str × (Str × Bool))) (mp fl : Bool) (d : Core.Doc) :
    (Core.rewriteDoc bb mp fl d).abs_path = d.abs_path ∧
    (Core.rewriteDoc bb mp fl d).id = d.id ∧
    (Core.rewriteDoc bb mp fl d).is_root_index = d.is_root_index := by
  unfold Core.rewriteDoc
  split <;> exact ⟨rfl, rfl, rfl⟩

theorem rewriteDoc_stable (docs : List Core.Doc) (mp fl : Bool) (d : Core.Doc)
    (h1 : ∀ d ∈ docs, endsWithCI (lastSlashPart d.abs_path) (strOf ".md") = true)
    (h2 : ∀ d ∈ docs, ∀ c ∈ d.id, c ≠ '?' ∧ c ≠ '#' ∧ c ≠ '/' ∧ c ≠ '%') :
    Core.rewriteDoc (Core.byBasename docs) mp fl
      (Core.rewriteDoc (Core.byBasename docs) mp fl d) =
    Core.rewriteDoc (Core.byBasename docs) mp fl d := by
  set f := Core.rewriteItem (Core.byBasename docs) mp fl d.is_root_index with hf
  by_cases hg : Core.htmlContainsMdCI d.html = true
  · have hstep : Core.rewriteDoc (Core.byBasename docs) mp fl d =
        { d with html := d.html.map f } := by
      unfold Core.rewriteDoc
      rw [if_pos hg]
    have hmap : (d.html.map f).map f = d.html.map f := by
      rw [List.map_map]
      apply List.map_congr_left
      intro x _
      show f (f x) = f x
      rw [hf]
      exact rewriteItem_stable docs mp fl d.is_root_index x h1 h2
    rw [hstep]
    unfold Core.rewriteDoc
    split
    · show ({ d with html := (d.html.map f).map f } : Core.Doc) =
        { d with html := d.html.map f }
      rw [hmap]
    · rfl
  · have hstep : Core.rewriteDoc (Core.byBasename docs) mp fl d = d := by
      unfold Core.rewriteDoc
      rw [if_neg hg]
    rw [hstep]
    exact hstep


/-- C5: applying `rewrite_internal_links` a second time leaves every
document unchanged, provided every document's filename basename ends
case-insensitively in `.md` and document ids avoid `?`, `#`, `/`, `%`
(claim C5, as amended with that proviso). -/
theorem c5_rewrite_idempotent (docs : List Core.Doc) (opts : Core.CoreBuildOptions)
    (h1 : ∀ d ∈ docs, endsWithCI (lastSlashPart d.abs_path) (strOf ".md") = true)
    (h2 : ∀ d ∈ docs, ∀ c ∈ d.id, c ≠ '?' ∧ c ≠ '#' ∧ c ≠ '/' ∧ c ≠ '%') :
    Core.rewrite_internal_links (Core.rewrite_internal_links docs opts) opts =
      Core.rewrite_internal_links docs opts := by
  by_cases he : docs.isEmpty = true
  · have hid : Core.rewrite_internal_links docs opts = docs := by
      unfold Core.rewrite_internal_links
      rw [if_pos he]
    rw [hid]
    exact hid
  · set mp := (docs.any fun d => d.is_root_index) && decide (1 < docs.length) with hmp
    set f := Core.rewriteDoc (Core.byBasename docs) mp opts.flat with hff
    have hinner : Core.rewrite_internal_links docs opts = docs.map f := by
      unfold Core.rewrite_internal_links
      rw [if_neg he]
    have hne : (docs.map f).isEmpty = false := by
      rcases docs with _ | ⟨x, xs⟩
      · simp at he
      · rfl
    have hkeymap : (docs.map f).map
        (fun d => (lastSlashPart d.abs_path, (d.id, d.is_root_index))) =
        docs.map (fun d => (lastSlashPart d.abs_path, (d.id, d.is_root_index))) := by
      rw [List.map_map]
      apply List.map_congr_left
      intro d _
      obtain ⟨ha, hi, hr⟩ := rewriteDoc_fields (Core.byBasename docs) mp opts.flat d
      show (lastSlashPart (f d).abs_path, ((f d).id, (f d).is_root_index)) =
        (lastSlashPart d.abs_path, (d.id, d.is_root_index))
      rw [hff]
      rw [ha, hi, hr]
    have hbb : Core.byBasename (docs.map f) = Core.byBasename docs := by
      unfold Core.byBasename
      rw [hkeymap]
    have hroot : ((docs.map f).any fun d => d.is_root_index) =
        (docs.any fun d => d.is_root_index) := by
      rw [List.any_map]
      congr 1
      funext d
      show (f d).is_root_index = d.is_root_index
      rw [hff]
      exact (rewriteDoc_fields (Core.byBasename docs) mp opts.flat d).2.2
    have houter : Core.rewrite_internal_links (docs.map f) opts =
        (docs.map f).map (Core.rewriteDoc (Core.byBasename (docs.map f))
          (((docs.map f).any fun d => d.is_root_index) &&
            decide (1 < (docs.map f).length)) opts.flat) := by
      unfold Core.rewrite_internal_links
      rw [if_neg (by rw [hne]; exact Bool.false_ne_true)]
    rw [hinner, houter, hbb, hroot, List.length_map]
    rw [List.map_map]
    apply List.map_congr_left
    intro d _
    show f (f d) = f d
    rw [hff]
    exact rewriteDoc_stable docs mp opts.flat d h1 h2




/-- C5 counterexample: with a loaded document whose basename is
`index.html` and an href carrying an `.md` query suffix, the second
rewrite pass rewrites the first pass's output again (`index.html?x.md`
still matches the `.md` regex and now resolves against the `index.html`
basename), so rewriting is not unconditionally idempotent. -/
theorem c5_second_rewrite_differs :
    (Core.rewrite_internal_links
        (Core.rewrite_internal_links [Fix.dIdemR, Fix.dIdemX] {}) {}).map
          (fun d => d.html) ≠
      (Core.rewrite_internal_links [Fix.dIdemR, Fix.dIdemX] {}).map
        (fun d => d.html) := by
  have hTwo : (Core.rewrite_internal_links
      (Core.rewrite_internal_links [Fix.dIdemR, Fix.dIdemX] {}) {}).map
        (fun d => d.html) =
      [[.hrefAttr (strOf "pages/index.html?x.md")], []] := rfl
  have h2 : (Core.rewrite_internal_links [Fix.dIdemR, Fix.dIdemX] {}).map
      (fun d => d.html) =
      [[.hrefAttr (strOf "index.html?x.md")], []] := rfl
  intro h
  rw [hTwo, h2] at h
  exact absurd h (by decide)

/-- C5 witness: the idempotence theorem applied to the concrete rewriter
fixture. -/
theorem c5_rewrite_idempotent_witness :
    Core.rewrite_internal_links
        (Core.rewrite_internal_links [Fix.dRoot1, Fix.dAlpha1] {}) {} =
      Core.rewrite_internal_links [Fix.dRoot1, Fix.dAlpha1] {} :=
  c5_rewrite_idempotent [Fix.dRoot1, Fix.dAlpha1] {} (by decide) (by decide)

end Diaryx
